import Mathlib

/-!
Verification development for the TranscriptClean per-record correction
engine (src/TranscriptClean.py).  The engine is embedded shallowly:

* CIGAR strings are represented post-parse, as lists of (count, operation)
  pairs, exactly the shape produced by the splitCIGAR helper of the source
  (counts are Int because splice-junction correction can drive intron
  lengths negative, which the source serializes with a leading dash).
* sequences are lists of characters; Python slice expressions are embedded
  by explicit take/drop helpers with Python clamping semantics;
* the genome accessor, variant catalogs, and splice-reference lookups are
  external collaborators, embedded as function parameters that may fail
  (Option models a raised lookup exception);
* stateful loops become folds over an explicit state record, and code that
  can raise becomes Option-valued, with the orchestrator catching failure.

Methods of the Transcript and SpliceJunction classes live in repository
files that are not part of src/ (transcript.py, spliceJunction.py,
intronBound.py); following the spec, those are modelled from the spec as
explicitly-passed collaborator functions, so every theorem quantifies over
all behaviors of the missing code.
-/

namespace TranscriptClean

/-- Python slice s[pos : pos + ct] on a character list (clamping, never failing). -/
def pySlice (s : List Char) (pos : Nat) (ct : Int) : List Char :=
  (s.drop pos).take ct.toNat

/-- Python slice s[0 : d] for a negative d: keep all but the last |d| characters. -/
def pySliceNegEnd (s : List Char) (d : Int) : List Char :=
  s.take (s.length - (-d).toNat)

/-- Genome accessor: maps a chromosome name and a one-based position to a base.
A result of none models a raised reference-lookup exception. -/
abbrev Genome : Type := String → Int → Option Char

/-- Fetch n consecutive bases starting at a one-based position; fails when
any position fails. -/
def gseqAux (g : Genome) (chrom : String) : Int → Nat → Option (List Char)
  | _, 0 => some []
  | start, n + 1 => do
    let c ← g chrom start
    let rest ← gseqAux g chrom (start + 1) n
    some (c :: rest)

/-- Embedding of genome.sequence over an inclusive one-based interval
[start, stop]; fails when any position in the interval fails. -/
def genome_sequence (g : Genome) (chrom : String) (start stop : Int) :
    Option (List Char) :=
  gseqAux g chrom start (stop + 1 - start).toNat

/-- Join a list of strings with tab characters, as "\t".join does. -/
def tabJoin : List String → String
  | [] => ""
  | [s] => s
  | s :: rest => s ++ "\t" ++ tabJoin rest

/-- CIGAR in parsed form: (count, operation letter) pairs, as returned by
splitCIGAR in the source. -/
abbrev Cigar : Type := List (Int × Char)

/-- Embedding of combinedJunctionDist (src/TranscriptClean.py lines 1220-1247):
combined genomic distance of two splice-junction ends from the closest
annotated junctions. -/
def combinedJunctionDist (dist_0 dist_1 : Int) : Int :=
  if dist_0 * dist_1 ≤ 0 then
    |dist_0| + |dist_1|
  else
    |(|dist_0| - |dist_1|)|

/-- A step of the validity loop of check_CIGAR_validity: prev is the previous
operation letter (none before the first iteration, as the Python empty
string). -/
def cigarValidLoop : Option Char → List (Int × Char) → Bool
  | _, [] => true
  | prev, (_, op) :: rest =>
    if prev = some 'N' ∧ op ≠ 'M' then false
    else if prev = some 'D' ∧ op = 'N' then false
    else cigarValidLoop (some op) rest

/-- Embedding of check_CIGAR_validity (src lines 1344-1363).  The source first
rejects any CIGAR string containing a dash; in the parsed representation a
dash is exactly a negative count. -/
def check_CIGAR_validity (c : Cigar) : Bool :=
  if c.any (fun p => p.1 < 0) then false
  else cigarValidLoop none c

/-- Embedding of endMatch (src lines 1062-1074): flush a pending match run
onto the rebuilt CIGAR. -/
def endMatch (MVal : Int) (newCIGAR : Cigar) : Int × Cigar :=
  if MVal > 0 then (0, newCIGAR ++ [(MVal, 'M')])
  else (MVal, newCIGAR)

/-- Modelled from the spec: intronBound.py is not in src/.  One side of a
splice junction; bound 0 is the donor-adjacent side, bound 1 the
acceptor-adjacent side, pos its one-based genomic position. -/
structure IntronBound where
  bound : Nat
  pos : Int
deriving DecidableEq

/-- Modelled from the spec: spliceJunction.py is not in src/.  A splice
junction derived from a Skip operation (spec section 3), carrying its two
intron bounds and canonical-motif flag. -/
structure SpliceJunction where
  chrom : String
  start : Int
  stop : Int
  isCanonical : Bool
  donor : IntronBound
  acceptor : IntronBound
deriving DecidableEq

/-- Modelled from the spec: transcript.py is not in src/.  The
AlignmentRecord of spec section 3, with the CIGAR kept in parsed form. -/
structure Transcript where
  QNAME : String
  CHROM : String
  POS : Int
  SEQ : List Char
  CIGAR : Cigar
  MD : String
  NM : Int
  jM : String
  jI : String
  spliceJunctions : List SpliceJunction
  isCanonical : Bool
deriving DecidableEq

/-- Result of a bedtools-closest query in find_closest_bound (src lines
1122-1139): closest annotated bound and its signed distance. -/
structure ClosestHit where
  chrom : String
  start : Int
  stop : Int
  dist : Int
deriving DecidableEq

/-- Modelled from the spec: collaborator methods of the Transcript and
SpliceJunction classes (transcript.py / spliceJunction.py, absent from
src/), passed explicitly so that theorems hold for every behavior of the
missing code.  Option-valued fields model methods that may raise. -/
structure TranscriptOps where
  mergeMDwithCIGAR : Transcript → Option Cigar
  getNMandMD : Genome → Transcript → Option (Int × String)
  jMjI : Transcript → Option (String × String)
  recheckCanonical : Transcript → Bool
  recheckPosition : SpliceJunction → SpliceJunction
  checkSpliceMotif : Genome → List String → SpliceJunction → Option SpliceJunction

/-- Modelled from the spec: junction.get_splice_donor() of spliceJunction.py. -/
def get_splice_donor (j : SpliceJunction) : IntronBound := j.donor

/-- Modelled from the spec: junction.get_splice_acceptor() of spliceJunction.py. -/
def get_splice_acceptor (j : SpliceJunction) : IntronBound := j.acceptor

/-- Modelled from the spec: writing an updated intron bound back into its
junction (the source mutates the aliased IntronBound object in place). -/
def setBound (j : SpliceJunction) (b : IntronBound) : SpliceJunction :=
  if b.bound = 0 then { j with donor := b } else { j with acceptor := b }

/-- Catalog of point substitutions: chrom_pos key to the list of allowed
alternate alleles, as built by processVCF (none models a missing key). -/
abbrev SnpCatalog : Type := String → Option (List (List Char))

/-- Catalog of insertions: chrom_start_end key to allowed inserted sequences. -/
abbrev InsCatalog : Type := String → Option (List (List Char))

/-- Catalog of deletions: chrom_start_end key membership, as built by processVCF. -/
abbrev DelCatalog : Type := String → Bool

/-- Loop state shared by the correction loops of correctInsertions,
correctDeletions and correctMismatches: the rebuilt sequence and CIGAR, the
pending match-run length, the read position, the genome position, and the
transcript-error log lines emitted so far. -/
structure CorrState where
  newSeq : List Char
  newCigar : Cigar
  mval : Int
  seqPos : Nat
  genomePos : Int
  te : List String
deriving DecidableEq

/-- Transcript-error log line, as assembled by the correction functions. -/
def teLine (tid ID kind : String) (size : Int) (status reason : String) : String :=
  tabJoin [tid, ID, kind, toString size, status, reason]

/-- Indel identifier chrom_start_end used as catalog key and log anchor. -/
def indelID (chrom : String) (startPos stopPos : Int) : String :=
  chrom ++ "_" ++ toString startPos ++ "_" ++ toString stopPos

/-- One iteration of the correction loop of correctInsertions (src lines
787-855), on one parsed CIGAR operation. -/
def insStep (chrom tid : String) (variants : InsCatalog) (maxLen : Int)
    (origSeq : List Char) (st : CorrState) (p : Int × Char) : CorrState :=
  let ct := p.1
  let op := p.2
  if op = 'M' then
    { st with newSeq := st.newSeq ++ pySlice origSeq st.seqPos ct,
              mval := st.mval + ct,
              seqPos := st.seqPos + ct.toNat,
              genomePos := st.genomePos + ct }
  else if op = 'I' then
    let ID := indelID chrom st.genomePos (st.genomePos + ct - 1)
    if ct ≤ maxLen then
      let corrected : CorrState :=
        { st with te := st.te ++ [teLine tid ID "Insertion" ct "Corrected" "NA"],
                  seqPos := st.seqPos + ct.toNat }
      match variants ID with
      | some alleles =>
        let currSeq := pySlice origSeq st.seqPos ct
        if currSeq ∈ alleles then
          let mc := endMatch st.mval st.newCigar
          { st with te := st.te ++ [teLine tid ID "Insertion" ct "Uncorrected" "VariantMatch"],
                    mval := mc.1,
                    newSeq := st.newSeq ++ currSeq,
                    newCigar := mc.2 ++ [(ct, op)],
                    seqPos := st.seqPos + ct.toNat }
        else corrected
      | none => corrected
    else
      let mc := endMatch st.mval st.newCigar
      { st with te := st.te ++ [teLine tid ID "Insertion" ct "Uncorrected" "TooLarge"],
                mval := mc.1,
                newSeq := st.newSeq ++ pySlice origSeq st.seqPos ct,
                newCigar := mc.2 ++ [(ct, op)],
                seqPos := st.seqPos + ct.toNat }
  else if op = 'S' then
    let mc := endMatch st.mval st.newCigar
    { st with mval := mc.1,
              newSeq := st.newSeq ++ pySlice origSeq st.seqPos ct,
              newCigar := mc.2 ++ [(ct, op)],
              seqPos := st.seqPos + ct.toNat }
  else if op = 'N' ∨ op = 'H' ∨ op = 'D' then
    let mc := endMatch st.mval st.newCigar
    { st with mval := mc.1,
              genomePos := st.genomePos + ct,
              newCigar := mc.2 ++ [(ct, op)] }
  else st

/-- Embedding of correctInsertions (src lines 759-864).  The function is
total: the source body raises no exceptions (its genome parameter is never
used there). -/
def correctInsertions (variants : InsCatalog) (maxLen : Int) (t : Transcript) :
    Transcript × List String :=
  if ¬ t.CIGAR.any (fun p => p.2 = 'I') then (t, [])
  else
    let st := t.CIGAR.foldl (insStep t.CHROM t.QNAME variants maxLen t.SEQ)
      ⟨[], [], 0, 0, t.POS, []⟩
    let mc := endMatch st.mval st.newCigar
    ({ t with CIGAR := mc.2, SEQ := st.newSeq }, st.te)

/-- One iteration of the correction loop of correctDeletions (src lines
894-958); the genome fetch in the deletion branches can raise, so the step
is Option-valued. -/
def delStep (genome : Genome) (chrom tid : String)
    (variants : DelCatalog) (maxLen : Int) (origSeq : List Char)
    (st : CorrState) (p : Int × Char) : Option CorrState :=
  let ct := p.1
  let op := p.2
  if op = 'M' then
    some { st with newSeq := st.newSeq ++ pySlice origSeq st.seqPos ct,
                   mval := st.mval + ct,
                   seqPos := st.seqPos + ct.toNat,
                   genomePos := st.genomePos + ct }
  else if op = 'D' then
    let ID := indelID chrom st.genomePos (st.genomePos + ct - 1)
    if ct ≤ maxLen then
      if variants ID then do
        let _currSeq ← genome_sequence genome chrom st.genomePos (st.genomePos + ct - 1)
        let mc := endMatch st.mval st.newCigar
        some { st with te := st.te ++ [teLine tid ID "Deletion" ct "Uncorrected" "VariantMatch"],
                       mval := mc.1,
                       genomePos := st.genomePos + ct,
                       newCigar := mc.2 ++ [(ct, op)] }
      else do
        let refBases ← genome_sequence genome chrom st.genomePos (st.genomePos + ct - 1)
        some { st with te := st.te ++ [teLine tid ID "Deletion" ct "Corrected" "NA"],
                       newSeq := st.newSeq ++ refBases,
                       genomePos := st.genomePos + ct,
                       mval := st.mval + ct }
    else
      let mc := endMatch st.mval st.newCigar
      some { st with te := st.te ++ [teLine tid ID "Deletion" ct "Uncorrected" "TooLarge"],
                     mval := mc.1,
                     newCigar := mc.2 ++ [(ct, op)],
                     genomePos := st.genomePos + ct }
  else if op = 'S' ∨ op = 'I' then
    let mc := endMatch st.mval st.newCigar
    some { st with mval := mc.1,
                   newSeq := st.newSeq ++ pySlice origSeq st.seqPos ct,
                   newCigar := mc.2 ++ [(ct, op)],
                   seqPos := st.seqPos + ct.toNat }
  else if op = 'N' ∨ op = 'H' then
    let mc := endMatch st.mval st.newCigar
    some { st with mval := mc.1,
                   genomePos := st.genomePos + ct,
                   newCigar := mc.2 ++ [(ct, op)] }
  else some st

/-- Embedding of correctDeletions (src lines 866-966); ends by recomputing
the NM/MD tags through the collaborator, as the source does. -/
def correctDeletions (ops : TranscriptOps) (genome : Genome)
    (variants : DelCatalog) (maxLen : Int) (t : Transcript) :
    Option (Transcript × List String) :=
  if ¬ t.CIGAR.any (fun p => p.2 = 'D') then some (t, [])
  else do
    let st ← t.CIGAR.foldlM (delStep genome t.CHROM t.QNAME variants maxLen t.SEQ)
      ⟨[], [], 0, 0, t.POS, []⟩
    let mc := endMatch st.mval st.newCigar
    let t2 := { t with CIGAR := mc.2, SEQ := st.newSeq }
    let nmmd ← ops.getNMandMD genome t2
    some ({ t2 with NM := nmmd.1, MD := nmmd.2 }, st.te)

/-- ASCII upper-casing of one character, the effect of str.upper on the MD
tag alphabet. -/
def charUpper (c : Char) : Char :=
  if 'a' ≤ c ∧ c ≤ 'z' then Char.ofNat (c.toNat - 32) else c

/-- Mismatch fast-path test of correctMismatches (src line 982): does the MD
tag, uppercased, contain any literal base character. -/
def hasMismatchBases (md : String) : Bool :=
  md.toList.any (fun c => charUpper c = 'A' ∨ charUpper c = 'C' ∨ charUpper c = 'T'
    ∨ charUpper c = 'G' ∨ charUpper c = 'N')

/-- Point-substitution identifier chrom_pos used as SNP-catalog key. -/
def snpID (chrom : String) (pos : Int) : String :=
  chrom ++ "_" ++ toString pos

/-- One iteration of the correction loop of correctMismatches (src lines
996-1049), over one merged CIGAR/MD operation; X marks a mismatch run. -/
def mmStep (genome : Genome) (chrom tid : String) (variants : SnpCatalog)
    (origSeq : List Char) (st : CorrState) (p : Int × Char) : Option CorrState :=
  let ct := p.1
  let op := p.2
  if op = 'M' then
    some { st with newSeq := st.newSeq ++ pySlice origSeq st.seqPos ct,
                   mval := st.mval + ct,
                   seqPos := st.seqPos + ct.toNat,
                   genomePos := st.genomePos + ct }
  else if op = 'X' then
    let ID := snpID chrom st.genomePos
    let corrected : Option CorrState := do
      let refBases ← genome_sequence genome chrom st.genomePos (st.genomePos + ct - 1)
      some { st with te := st.te ++ [teLine tid ID "Mismatch" ct "Corrected" "NA"],
                     newSeq := st.newSeq ++ refBases,
                     seqPos := st.seqPos + ct.toNat,
                     genomePos := st.genomePos + ct,
                     mval := st.mval + ct }
    match variants ID with
    | some alleles => do
      let currBase ← origSeq.get? st.seqPos
      if [currBase] ∈ alleles then
        some { st with te := st.te ++ [teLine tid ID "Mismatch" ct "Uncorrected" "VariantMatch"],
                       newSeq := st.newSeq ++ pySlice origSeq st.seqPos ct,
                       mval := st.mval + ct,
                       seqPos := st.seqPos + ct.toNat,
                       genomePos := st.genomePos + ct }
      else corrected
    | none => corrected
  else if op = 'S' ∨ op = 'I' then
    let mc := endMatch st.mval st.newCigar
    some { st with mval := mc.1,
                   newSeq := st.newSeq ++ pySlice origSeq st.seqPos ct,
                   newCigar := mc.2 ++ [(ct, op)],
                   seqPos := st.seqPos + ct.toNat }
  else if op = 'N' ∨ op = 'H' ∨ op = 'D' then
    let mc := endMatch st.mval st.newCigar
    some { st with mval := mc.1,
                   genomePos := st.genomePos + ct,
                   newCigar := mc.2 ++ [(ct, op)] }
  else some st

/-- Embedding of correctMismatches (src lines 969-1059): fast path when the
MD tag holds no literal bases, otherwise walk the merged CIGAR/MD stream and
rebuild sequence and CIGAR, then recompute the NM/MD tags. -/
def correctMismatches (ops : TranscriptOps) (genome : Genome)
    (variants : SnpCatalog) (t : Transcript) :
    Option (Transcript × List String) :=
  if hasMismatchBases t.MD = false then some (t, [])
  else do
    let merged ← ops.mergeMDwithCIGAR t
    let st ← merged.foldlM (mmStep genome t.CHROM t.QNAME variants t.SEQ)
      ⟨[], [], 0, 0, t.POS, []⟩
    let mc := endMatch st.mval st.newCigar
    let t2 := { t with CIGAR := mc.2, SEQ := st.newSeq }
    let nmmd ← ops.getNMandMD genome t2
    some ({ t2 with NM := nmmd.1, MD := nmmd.2 }, st.te)

/-- One grouping step of group_CIGAR_by_exon_and_intron (src lines
1250-1283); the accumulator carries the exon lists built so far, the current
exon CIGAR and sequence, and the read index. -/
structure GroupState where
  exonSeqs : List (List Char)
  exonCIGARs : List Cigar
  intronCIGARs : List Int
  currExonStr : List Char
  currExonCIGAR : Cigar
  currSeqIndex : Nat
deriving DecidableEq

/-- Loop body of group_CIGAR_by_exon_and_intron. -/
def groupStep (seq : List Char) (st : GroupState) (p : Int × Char) : GroupState :=
  let ct := p.1
  let op := p.2
  if op = 'N' then
    { st with exonSeqs := st.exonSeqs ++ [st.currExonStr],
              intronCIGARs := st.intronCIGARs ++ [ct],
              exonCIGARs := st.exonCIGARs ++ [st.currExonCIGAR],
              currExonStr := [],
              currExonCIGAR := [] }
  else if op = 'M' ∨ op = 'S' ∨ op = 'I' then
    { st with currExonStr := st.currExonStr ++ pySlice seq st.currSeqIndex ct,
              currExonCIGAR := st.currExonCIGAR ++ [(ct, op)],
              currSeqIndex := st.currSeqIndex + ct.toNat }
  else
    { st with currExonCIGAR := st.currExonCIGAR ++ [(ct, op)] }

/-- Embedding of group_CIGAR_by_exon_and_intron (src lines 1250-1283):
group CIGAR operations and the sequence by exon, keeping one intron length
per Skip operation. -/
def group_CIGAR_by_exon_and_intron (CIGAR : Cigar) (seq : List Char) :
    List Cigar × List Int × List (List Char) :=
  let st := CIGAR.foldl (groupStep seq) ⟨[], [], [], [], [], 0⟩
  (st.exonCIGARs ++ [st.currExonCIGAR],
   st.intronCIGARs,
   st.exonSeqs ++ [st.currExonStr])

/-- Deletion loop of editExonCIGAR (src lines 1392-1406): remove a bases
from the front of an exon CIGAR, trimming or dropping operations. -/
def cigarDropBases : List (Int × Char) → Int → List (Int × Char)
  | [], _ => []
  | (ct, op) :: rest, a =>
    let remainder := ct - a
    if remainder > 0 then (remainder, op) :: rest
    else if remainder = 0 then rest
    else cigarDropBases rest (a - ct)

/-- Embedding of editExonCIGAR (src lines 1375-1415): add or subtract bases
at the start (side 0) or end (side -1) of an exon CIGAR.  Fails exactly
where the source raises an IndexError: adding bases to an empty exon CIGAR. -/
def editExonCIGAR (exon : Cigar) (side : Int) (nBases : Int) : Option Cigar := do
  let l := if side = -1 then exon.reverse else exon
  let r ←
    if nBases ≥ 0 then
      match l with
      | [] => none
      | (ct, op) :: rest =>
        if op = 'M' then some ((ct + nBases, op) :: rest)
        else some ((nBases, 'M') :: (ct, op) :: rest)
    else
      some (cigarDropBases l (-nBases))
  some (if side = -1 then r.reverse else r)

/-- Reassembly loop at the end of fix_one_side_of_junction (src lines
1336-1339): exon CIGARs interleaved with intron lengths, then the last exon. -/
def interleaveCigar (exons : List Cigar) (introns : List Int) : Cigar :=
  (List.range introns.length).foldl
    (fun acc i => acc ++ exons.getD i [] ++ [(introns.getD i 0, 'N')]) []
    ++ (exons.getLast?.getD [])

/-- Embedding of fix_one_side_of_junction (src lines 1285-1341): shift one
side of a noncanonical splice junction by d bases, rebuilding sequence and
CIGAR.  Fails where the source raises: failed genome lookups and
out-of-range exon indexing.  Returns the new sequence, the new CIGAR and
the updated intron bound (mutated in place by the source). -/
def fix_one_side_of_junction (chrom : String) (_transcript_start : Int)
    (jn_number : Nat) (intronBound : IntronBound) (d : Int) (genome : Genome)
    (seq : List Char) (oldCIGAR : Cigar) :
    Option (List Char × Cigar × IntronBound) :=
  if d = 0 then some (seq, oldCIGAR, intronBound)
  else
    let g := group_CIGAR_by_exon_and_intron oldCIGAR seq
    let exonCIGARs := g.1
    let intronCIGARs := g.2.1
    let exonSeqs := g.2.2
    if intronBound.bound = 0 then do
      let targetExon := jn_number
      let exon ← exonSeqs.get? targetExon
      let upd ←
        if d > 0 then do
          let exonEnd := intronBound.pos - 1
          let refAdd ← genome_sequence genome chrom (exonEnd + 1) (exonEnd + d)
          some (exonSeqs.set targetExon (exon ++ refAdd),
                { intronBound with pos := intronBound.pos + d })
        else
          some (exonSeqs.set targetExon (pySliceNegEnd exon d),
                { intronBound with pos := intronBound.pos + d })
      let ic ← intronCIGARs.get? jn_number
      let intronCIGARs2 := intronCIGARs.set jn_number (ic - d)
      let ec ← exonCIGARs.get? targetExon
      let ec2 ← editExonCIGAR ec (-1) d
      let exonCIGARs2 := exonCIGARs.set targetExon ec2
      some (upd.1.flatten, interleaveCigar exonCIGARs2 intronCIGARs2, upd.2)
    else do
      let targetExon := jn_number + 1
      let exon ← exonSeqs.get? targetExon
      let upd ←
        if d < 0 then do
          let exonStart := intronBound.pos + 1
          let refAdd ← genome_sequence genome chrom (exonStart - |d|) (exonStart - 1)
          some (exonSeqs.set targetExon (refAdd ++ exon),
                { intronBound with pos := intronBound.pos + d })
        else
          some (exonSeqs.set targetExon (exon.drop d.toNat),
                { intronBound with pos := intronBound.pos + d })
      let ec ← exonCIGARs.get? targetExon
      let ec2 ← editExonCIGAR ec 0 (-d)
      let exonCIGARs2 := exonCIGARs.set targetExon ec2
      let ic ← intronCIGARs.get? jn_number
      let intronCIGARs2 := intronCIGARs.set jn_number (ic + d)
      some (upd.1.flatten, interleaveCigar exonCIGARs2 intronCIGARs2, upd.2)

/-- Embedding of update_post_ncsj_correction (src lines 1156-1169): after a
junction correction, reassign the junction position, recompute the splice
motif, the NM/MD tags, the jM/jI tags and the canonical flag, through the
collaborator methods. -/
def update_post_ncsj_correction (ops : TranscriptOps) (t : Transcript)
    (splice_jn_num : Nat) (genome : Genome) (sjAnnot : List String) :
    Option Transcript := do
  let junction ← t.spliceJunctions.get? splice_jn_num
  let junction2 := ops.recheckPosition junction
  let junction3 ← ops.checkSpliceMotif genome sjAnnot junction2
  let t2 := { t with spliceJunctions := t.spliceJunctions.set splice_jn_num junction3 }
  let nmmd ← ops.getNMandMD genome t2
  let t3 := { t2 with NM := nmmd.1, MD := nmmd.2 }
  let jmji ← ops.jMjI t3
  let t4 := { t3 with jM := jmji.1, jI := jmji.2 }
  some { t4 with isCanonical := ops.recheckCanonical t4 }

/-- Embedding of the try block of attempt_jn_correction (src lines
1197-1213): fix the donor side, fix the acceptor side, then run the
post-correction updates; none models any raised exception inside the block. -/
def attempt_jn_try (ops : TranscriptOps) (t : Transcript) (splice_jn_num : Nat)
    (junction : SpliceJunction) (donorDist acceptorDist : Int)
    (genome : Genome) (sjAnnot : List String) : Option Transcript := do
  let donor := get_splice_donor junction
  let fixed1 ← fix_one_side_of_junction t.CHROM t.POS splice_jn_num donor
    donorDist genome t.SEQ t.CIGAR
  let junction1 := setBound junction fixed1.2.2
  let t1 := { t with SEQ := fixed1.1, CIGAR := fixed1.2.1,
                     spliceJunctions := t.spliceJunctions.set splice_jn_num junction1 }
  let acceptor := get_splice_acceptor junction1
  let fixed2 ← fix_one_side_of_junction t1.CHROM t1.POS splice_jn_num acceptor
    acceptorDist genome t1.SEQ t1.CIGAR
  let junction2 := setBound junction1 fixed2.2.2
  let t2 := { t1 with SEQ := fixed2.1, CIGAR := fixed2.2.1,
                      spliceJunctions := t1.spliceJunctions.set splice_jn_num junction2 }
  update_post_ncsj_correction ops t2 splice_jn_num genome sjAnnot

/-- Splice-reference nearest-bound query, the shape of find_closest_bound
(src lines 1122-1139); an external bedtools call, so a parameter that may
fail. -/
abbrev ClosestFn : Type := IntronBound → Option ClosestHit

/-- Embedding of attempt_jn_correction (src lines 1171-1217).  Returns the
correction status, the reason, the combined distance and the resulting
transcript; the transcript is returned unchanged unless the whole try block
succeeded.  A none result models an exception raised outside the try block
(junction indexing or the closest-junction queries). -/
def attempt_jn_correction (ops : TranscriptOps) (t : Transcript)
    (splice_jn_num : Nat) (genome : Genome) (ref_donors ref_acceptors : ClosestFn)
    (sjAnnot : List String) (maxDist : Int) :
    Option (Bool × String × Int × Transcript) := do
  let junction ← t.spliceJunctions.get? splice_jn_num
  let ref_donor ← ref_donors (get_splice_donor junction)
  let ref_acceptor ← ref_acceptors (get_splice_acceptor junction)
  let combined_dist := combinedJunctionDist ref_donor.dist ref_acceptor.dist
  if combined_dist > maxDist ∨ |ref_donor.dist| > 2 * maxDist ∨
      |ref_acceptor.dist| > 2 * maxDist then
    some (false, "TooFarFromAnnotJn", combined_dist, t)
  else
    match attempt_jn_try ops t splice_jn_num junction ref_donor.dist
        ref_acceptor.dist genome sjAnnot with
    | none => some (false, "Other", combined_dist, t)
    | some t2 => some (true, "NA", combined_dist, t2)

/-- Junction anchor chrom_start_end used in the noncanonical-junction log. -/
def sjID (j : SpliceJunction) : String :=
  j.chrom ++ "_" ++ toString j.start ++ "_" ++ toString j.stop

/-- Loop of cleanNoncanonical (src lines 1090-1118) over junction indices:
skip canonical junctions, attempt correction of noncanonical ones on a
speculative copy, keep the copy only on success, and log one entry per
attempted junction. -/
def cleanNC_loop (ops : TranscriptOps) (genome : Genome)
    (ref_donors ref_acceptors : ClosestFn) (sjAnnot : List String)
    (maxDist : Int) :
    List Nat → Transcript → List String → Option (Transcript × List String)
  | [], t, te => some (t, te)
  | i :: rest, t, te => do
    let junction ← t.spliceJunctions.get? i
    if junction.isCanonical then
      cleanNC_loop ops genome ref_donors ref_acceptors sjAnnot maxDist rest t te
    else do
      let ID := sjID junction
      let att ← attempt_jn_correction ops t i genome ref_donors ref_acceptors
        sjAnnot maxDist
      let upd := if att.1 then (att.2.2.2, "Corrected") else (t, "Uncorrected")
      let entry := tabJoin [upd.1.QNAME, ID, "NC_SJ_boundary",
                            toString att.2.2.1, upd.2, att.2.1]
      cleanNC_loop ops genome ref_donors ref_acceptors sjAnnot maxDist rest
        upd.1 (te ++ [entry])

/-- Embedding of cleanNoncanonical (src lines 1076-1120): return unchanged
when the transcript is already canonical, otherwise iterate over all
junction indices. -/
def cleanNoncanonical (ops : TranscriptOps) (genome : Genome)
    (ref_donors ref_acceptors : ClosestFn) (sjAnnot : List String)
    (maxDist : Int) (t : Transcript) : Option (Transcript × List String) :=
  if t.isCanonical = true then some (t, [])
  else
    cleanNC_loop ops genome ref_donors ref_acceptors sjAnnot maxDist
      (List.range t.spliceJunctions.length) t []

/-- Correction options of the orchestrator (the string comparisons of the
source are modelled by booleans). -/
structure CorrOptions where
  mismatchCorrection : Bool
  indelCorrection : Bool
  sjCorrection : Bool
  maxLenIndel : Int
  maxSJOffset : Int

/-- Reference bundle handed to the orchestrator: genome accessor, variant
catalogs, splice-reference queries and the annotated-junction set. -/
structure Refs where
  genome : Genome
  snps : SnpCatalog
  insertions : InsCatalog
  deletions : DelCatalog
  donors : ClosestFn
  acceptors : ClosestFn
  sjAnnot : List String

/-- Embedding of the try block of correct_transcript (src lines 372-397):
mismatch, insertion, deletion, then splice-junction correction in that fixed
order, each gated by its option, accumulating transcript-error entries. -/
def correct_transcript_body (opts : CorrOptions) (refs : Refs)
    (ops : TranscriptOps) (t0 : Transcript) :
    Option (Transcript × List String) := do
  let s1 ←
    if opts.mismatchCorrection then correctMismatches ops refs.genome refs.snps t0
    else some (t0, [])
  let s2 ←
    if opts.indelCorrection then do
      let si := correctInsertions refs.insertions opts.maxLenIndel s1.1
      let sd ← correctDeletions ops refs.genome refs.deletions opts.maxLenIndel si.1
      some (sd.1, si.2 ++ sd.2)
    else some (s1.1, [])
  if refs.sjAnnot.length > 0 ∧ opts.sjCorrection = true then do
    let s3 ← cleanNoncanonical ops refs.genome refs.donors refs.acceptors
      refs.sjAnnot opts.maxSJOffset s2.1
    some (s3.1, s1.2 ++ s2.2 ++ s3.2)
  else
    some (s2.1, s1.2 ++ s2.2)

/-- Outcome of one orchestrated correction: the returned record, its
transcript-error log lines, and any diagnostic warning emitted. -/
structure CorrectResult where
  transcript : Transcript
  teEntries : List String
  diagnostics : List String
deriving DecidableEq

/-- Diagnostic warning emitted by correct_transcript on a failed correction
(src lines 400-402). -/
def correctionWarning (t : Transcript) : String :=
  "Problem encountered while correcting transcript with ID " ++ t.QNAME ++
    ". Will output original version."

/-- Embedding of correct_transcript (src lines 357-409) for a primary,
successfully parsed alignment: run the correction stages on a working copy;
if any stage raises, discard all partial edits and the partial
transcript-error entries, emit one diagnostic warning, and return the
original record. -/
def correct_transcript (opts : CorrOptions) (refs : Refs)
    (ops : TranscriptOps) (orig : Transcript) : CorrectResult :=
  match correct_transcript_body opts refs ops orig with
  | some s => ⟨s.1, s.2, []⟩
  | none => ⟨orig, [], [correctionWarning orig]⟩

/-! ### Specification-side predicates and measures -/

/-- Read span of a parsed CIGAR: bases consumed from the read sequence
(Match, Insertion, SoftClip). -/
def readSpan : Cigar → Nat
  | [] => 0
  | p :: rest => (if p.2 = 'M' ∨ p.2 = 'I' ∨ p.2 = 'S' then p.1.toNat else 0) + readSpan rest

/-- Genome span walked by the indel-correction loops: operations on which
those loops advance genomePos (Match, Skip, HardClip, Deletion). -/
def refSpan : Cigar → Int
  | [] => 0
  | p :: rest => (if p.2 = 'M' ∨ p.2 = 'N' ∨ p.2 = 'H' ∨ p.2 = 'D' then p.1 else 0) + refSpan rest

/-- Property from the claim on the CIGAR validator: the CIGAR contains a
Skip operation that is not immediately followed by a Match (including a
Skip in final position, after which nothing follows). -/
def hasSkipNotFollowedByMatch (c : Cigar) : Prop :=
  ∃ i : Fin c.length, (c.get i).2 = 'N' ∧ (c.get? (i.1 + 1)).map Prod.snd ≠ some 'M'

/-- Adjacent-pair violation of the CIGAR grammar: a Skip immediately
followed by a non-Match, or a Deletion immediately followed by a Skip. -/
def badAdjacent (x y : Int × Char) : Prop :=
  (x.2 = 'N' ∧ y.2 ≠ 'M') ∨ (x.2 = 'D' ∧ y.2 = 'N')

/-- Violation of the loop guard of check_CIGAR_validity relative to the
previous operation letter. -/
def badPrevOp (prev : Option Char) (op : Char) : Prop :=
  (prev = some 'N' ∧ op ≠ 'M') ∨ (prev = some 'D' ∧ op = 'N')

instance (x y : Int × Char) : Decidable (badAdjacent x y) := by
  unfold badAdjacent; infer_instance

instance (prev : Option Char) (op : Char) : Decidable (badPrevOp prev op) := by
  unfold badPrevOp; infer_instance

/-! ### Concrete instances used to witness the theorems on small inputs -/

/-- Collaborator instance whose methods are total and trivial. -/
def opsId : TranscriptOps where
  mergeMDwithCIGAR := fun t => some t.CIGAR
  getNMandMD := fun _ _ => some (0, "")
  jMjI := fun _ => some ("", "")
  recheckCanonical := fun _ => true
  recheckPosition := fun j => j
  checkSpliceMotif := fun _ _ j => some j

/-- Collaborator instance whose CIGAR/MD merge raises. -/
def opsMergeFail : TranscriptOps :=
  { opsId with mergeMDwithCIGAR := fun _ => none }

/-- Genome accessor answering the base A at every position. -/
def genomeConstA : Genome := fun _ _ => some 'A'

/-- Genome accessor failing at every position. -/
def genomeNoLookup : Genome := fun _ _ => none

/-- Empty variant catalogs. -/
def noSnps : SnpCatalog := fun _ => none

def noInsVariants : InsCatalog := fun _ => none

def noDelVariants : DelCatalog := fun _ => false

/-- Splice-reference query answering a fixed signed distance. -/
def closestAt (d : Int) : ClosestFn := fun _ => some ⟨"chr1", 0, 0, d⟩

/-- Record 3M2I3M used to witness insertion correction. -/
def wtIns : Transcript :=
  ⟨"read", "chr1", 101, "AAATTAAA".toList, [(3, 'M'), (2, 'I'), (3, 'M')],
   "6", 2, "", "", [], true⟩

/-- Record 10M2D10M used to witness deletion correction. -/
def wtDel : Transcript :=
  ⟨"read", "chr1", 101, "CCCCCCCCCCGGGGGGGGGG".toList,
   [(10, 'M'), (2, 'D'), (10, 'M')], "10^AA10", 2, "", "", [], true⟩

/-- A noncanonical junction between two 5M exons. -/
def wjn : SpliceJunction := ⟨"chr1", 6, 15, false, ⟨0, 6⟩, ⟨1, 15⟩⟩

/-- Record 5M10N5M carrying the noncanonical junction wjn. -/
def wtSJ : Transcript :=
  ⟨"r2", "chr1", 1, "AAAAACCCCC".toList, [(5, 'M'), (10, 'N'), (5, 'M')],
   "10", 0, "", "", [wjn], false⟩

/-- Error-free record: no mismatch bases in MD, no indels, no junctions. -/
def wtClean : Transcript :=
  ⟨"r3", "chr1", 1, "ACGT".toList, [(4, 'M')], "", 0, "", "", [], true⟩

/-- Record whose MD tag holds a literal base, so mismatch correction engages. -/
def wtMM : Transcript := { wtClean with MD := "A5" }

/-- Reference bundle for witnesses. -/
def wRefs : Refs :=
  ⟨genomeConstA, noSnps, noInsVariants, noDelVariants, closestAt 1, closestAt 1, ["jn"]⟩

/-- Options with every correction enabled. -/
def wOpts : CorrOptions := ⟨true, true, true, 5, 5⟩

/-! ### C1 and C10: the combined junction distance -/

/-- Claim C1: combinedJunctionDist adds magnitudes when the offsets have
different signs or either is zero, takes the difference of magnitudes when
they share a sign, and in particular maps (+2,-2) to 4, (0,+2) to 2 and
(+1,+4) to 3. -/
theorem combinedJunctionDist_spec (d0 d1 : Int) :
    (((d0 < 0 ∧ 0 < d1) ∨ (d1 < 0 ∧ 0 < d0) ∨ d0 = 0 ∨ d1 = 0) →
      combinedJunctionDist d0 d1 = |d0| + |d1|) ∧
    (((0 < d0 ∧ 0 < d1) ∨ (d0 < 0 ∧ d1 < 0)) →
      combinedJunctionDist d0 d1 = |(|d0| - |d1|)|) ∧
    combinedJunctionDist 2 (-2) = 4 ∧
    combinedJunctionDist 0 2 = 2 ∧
    combinedJunctionDist 1 4 = 3 := by
  refine ⟨?_, ?_, by decide, by decide, by decide⟩
  · intro h
    have hm : d0 * d1 ≤ 0 := by
      rcases h with ⟨h1, h2⟩ | ⟨h1, h2⟩ | h | h
      · exact le_of_lt (mul_neg_of_neg_of_pos h1 h2)
      · exact le_of_lt (mul_neg_of_pos_of_neg h2 h1)
      · simp [h]
      · simp [h]
    simp [combinedJunctionDist, hm]
  · intro h
    have hm : ¬ d0 * d1 ≤ 0 := by
      rcases h with ⟨h1, h2⟩ | ⟨h1, h2⟩
      · exact not_le.mpr (mul_pos h1 h2)
      · exact not_le.mpr (mul_pos_of_neg_of_neg h1 h2)
    simp [combinedJunctionDist, hm]

/-- Witness for C1 at the concrete offsets (+1, +4). -/
theorem combinedJunctionDist_spec_witness :
    combinedJunctionDist 1 4 = |(|(1 : Int)| - |(4 : Int)|)| :=
  (combinedJunctionDist_spec 1 4).2.1 (Or.inl ⟨by decide, by decide⟩)

/-- Claim C10: combinedJunctionDist is commutative. -/
theorem combinedJunctionDist_comm (d0 d1 : Int) :
    combinedJunctionDist d0 d1 = combinedJunctionDist d1 d0 := by
  unfold combinedJunctionDist
  rw [mul_comm]
  rcases le_or_lt (d1 * d0) 0 with h | h
  · simp [h, add_comm]
  · simp [not_le.mpr h, abs_sub_comm]

/-! ### C8: the CIGAR validator -/

/-- Counterexample for claim C8: a CIGAR ending in a Skip contains a Skip
operation not immediately followed by a Match, yet the validator accepts
it. -/
theorem check_CIGAR_validity_trailing_skip_cex :
    hasSkipNotFollowedByMatch [(10, 'M'), (5, 'N')] ∧
    check_CIGAR_validity [(10, 'M'), (5, 'N')] = true := by
  constructor
  · exact ⟨⟨1, by decide⟩, by decide, by decide⟩
  · decide

/-- Loop characterization: the validity loop fails exactly on a head
operation violating the guard against the incoming previous operation, or
on an adjacent violating pair further in. -/
theorem cigarValidLoop_false_iff (c : Cigar) (prev : Option Char) :
    cigarValidLoop prev c = false ↔
      ((∃ x rest, c = x :: rest ∧ badPrevOp prev x.2) ∨
       (∃ l1 x y l2, c = l1 ++ x :: y :: l2 ∧ badAdjacent x y)) := by
  induction c generalizing prev with
  | nil =>
    simp [cigarValidLoop]
  | cons p rest ih =>
    obtain ⟨ct, op⟩ := p
    by_cases h1 : prev = some 'N' ∧ op ≠ 'M'
    · simp only [cigarValidLoop, if_pos h1]
      constructor
      · intro _
        exact Or.inl ⟨(ct, op), rest, rfl, Or.inl h1⟩
      · intro _; trivial
    · by_cases h2 : prev = some 'D' ∧ op = 'N'
      · simp only [cigarValidLoop, if_neg h1, if_pos h2]
        constructor
        · intro _
          exact Or.inl ⟨(ct, op), rest, rfl, Or.inr h2⟩
        · intro _; trivial
      · simp only [cigarValidLoop, if_neg h1, if_neg h2]
        rw [ih (some op)]
        constructor
        · rintro (⟨x, r2, hr, hb⟩ | ⟨l1, x, y, l2, hr, hb⟩)
          · refine Or.inr ⟨[], (ct, op), x, r2, by simp [hr], ?_⟩
            rcases hb with ⟨hN, hm⟩ | ⟨hD, hn⟩
            · exact Or.inl ⟨by simpa using hN, hm⟩
            · exact Or.inr ⟨by simpa using hD, hn⟩
          · exact Or.inr ⟨(ct, op) :: l1, x, y, l2, by simp [hr], hb⟩
        · rintro (⟨x, r2, hr, hb⟩ | ⟨l1, x, y, l2, hr, hb⟩)
          · rw [List.cons_eq_cons] at hr
            obtain ⟨hx, -⟩ := hr
            rw [← hx] at hb
            exact absurd hb (by simpa [badPrevOp] using not_or.mpr ⟨h1, h2⟩)
          · cases l1 with
            | nil =>
              simp only [List.nil_append, List.cons_eq_cons] at hr
              obtain ⟨hx, hrest⟩ := hr
              refine Or.inl ⟨y, l2, hrest, ?_⟩
              rcases hb with ⟨hN, hm⟩ | ⟨hD, hn⟩
              · exact Or.inl ⟨by cases hx; simpa using hN, hm⟩
              · exact Or.inr ⟨by cases hx; simpa using hD, hn⟩
            | cons z l1x =>
              simp only [List.cons_append, List.cons_eq_cons] at hr
              obtain ⟨-, hrest⟩ := hr
              exact Or.inr ⟨l1x, x, y, l2, hrest, hb⟩

/-- Claim C8 amended: for a CIGAR with nonnegative counts, the validator
returns False exactly when some Skip is immediately followed by a non-Match
operation or some Deletion is immediately followed by a Skip; a trailing
Skip with no following operation is accepted. -/
theorem check_CIGAR_validity_false_iff (c : Cigar) (hpos : ∀ p ∈ c, 0 ≤ p.1) :
    check_CIGAR_validity c = false ↔
      ∃ l1 x y l2, c = l1 ++ x :: y :: l2 ∧ badAdjacent x y := by
  have hneg : c.any (fun p => p.1 < 0) = false := by
    simp only [List.any_eq_false, decide_eq_true_eq]
    intro p hp
    exact not_lt.mpr (hpos p hp)
  rw [check_CIGAR_validity, hneg, if_neg (by simp), cigarValidLoop_false_iff]
  constructor
  · rintro (⟨x, rest, -, hb⟩ | h)
    · rcases hb with ⟨h, -⟩ | ⟨h, -⟩ <;> exact absurd h (by simp)
    · exact h
  · exact Or.inr

/-- Witness for the amended C8 on a Deletion immediately followed by Skip. -/
theorem check_CIGAR_validity_false_iff_witness :
    check_CIGAR_validity [(5, 'D'), (5, 'N'), (3, 'M')] = false :=
  (check_CIGAR_validity_false_iff _ (by decide)).mpr
    ⟨[], (5, 'D'), (5, 'N'), [(3, 'M')], rfl, Or.inr ⟨rfl, rfl⟩⟩

/-! ### Loop invariants of the indel-correction folds -/

lemma readSpan_cons (p : Int × Char) (l : Cigar) :
    readSpan (p :: l)
      = (if p.2 = 'M' ∨ p.2 = 'I' ∨ p.2 = 'S' then p.1.toNat else 0) + readSpan l := rfl

lemma refSpan_cons (p : Int × Char) (l : Cigar) :
    refSpan (p :: l)
      = (if p.2 = 'M' ∨ p.2 = 'N' ∨ p.2 = 'H' ∨ p.2 = 'D' then p.1 else 0) + refSpan l := rfl

lemma readSpan_append (a b : Cigar) : readSpan (a ++ b) = readSpan a + readSpan b := by
  induction a with
  | nil => simp [readSpan]
  | cons p rest ih => simp only [List.cons_append, readSpan_cons, ih]; omega

lemma refSpan_append (a b : Cigar) : refSpan (a ++ b) = refSpan a + refSpan b := by
  induction a with
  | nil => simp [refSpan]
  | cons p rest ih => simp only [List.cons_append, refSpan_cons, ih]; ring

lemma slice_merge (s : List Char) (pos a b : Nat) :
    (s.drop pos).take a ++ (s.drop (pos + a)).take b = (s.drop pos).take (a + b) := by
  rw [List.take_add, List.drop_drop]

lemma endMatch_mem {x : Int × Char} (MVal : Int) (c : Cigar) (hx : x ∈ c) :
    x ∈ (endMatch MVal c).2 := by
  unfold endMatch
  split
  · exact List.mem_append_left _ hx
  · exact hx

lemma endMatch_mem_rev {x : Int × Char} (MVal : Int) (c : Cigar)
    (hx : x ∈ (endMatch MVal c).2) : x ∈ c ∨ x.2 = 'M' := by
  unfold endMatch at hx
  split at hx
  · rcases List.mem_append.mp hx with h | h
    · exact Or.inl h
    · simp only [List.mem_singleton] at h
      exact Or.inr (by rw [h])
  · exact Or.inl hx

lemma cigar_extend_mem (c : Cigar) (MVal ct : Int) (op : Char) :
    (∀ x ∈ c, x ∈ (endMatch MVal c).2 ++ [(ct, op)]) ∧
    (∀ x ∈ (endMatch MVal c).2 ++ [(ct, op)], x ∈ c ∨ x.2 = 'M' ∨ x.2 = op) := by
  constructor
  · intro x hx
    exact List.mem_append_left _ (endMatch_mem _ _ hx)
  · intro x hx
    rcases List.mem_append.mp hx with h | h
    · rcases endMatch_mem_rev _ _ h with h | h
      · exact Or.inl h
      · exact Or.inr (Or.inl h)
    · simp only [List.mem_singleton] at h
      exact Or.inr (Or.inr (by rw [h]))

/-- Effect of one insertion-loop step on any operation other than an
Insertion: the read pointer, sequence, genome pointer and log evolve by the
span measures, and the rebuilt CIGAR only grows by flushed Match runs and
the operation itself. -/
lemma insStep_not_ins (chrom tid : String) (variants : InsCatalog)
    (maxLen : Int) (origSeq : List Char) (st : CorrState) (p : Int × Char)
    (h : p.2 ≠ 'I') :
    (insStep chrom tid variants maxLen origSeq st p).newSeq
        = st.newSeq ++ (origSeq.drop st.seqPos).take
            (if p.2 = 'M' ∨ p.2 = 'I' ∨ p.2 = 'S' then p.1.toNat else 0) ∧
    (insStep chrom tid variants maxLen origSeq st p).seqPos
        = st.seqPos + (if p.2 = 'M' ∨ p.2 = 'I' ∨ p.2 = 'S' then p.1.toNat else 0) ∧
    (insStep chrom tid variants maxLen origSeq st p).genomePos
        = st.genomePos + (if p.2 = 'M' ∨ p.2 = 'N' ∨ p.2 = 'H' ∨ p.2 = 'D' then p.1 else 0) ∧
    (insStep chrom tid variants maxLen origSeq st p).te = st.te ∧
    (∀ x ∈ st.newCigar, x ∈ (insStep chrom tid variants maxLen origSeq st p).newCigar) ∧
    (∀ x ∈ (insStep chrom tid variants maxLen origSeq st p).newCigar,
        x ∈ st.newCigar ∨ x.2 = 'M' ∨ x.2 = p.2) := by
  obtain ⟨ct, op⟩ := p
  simp only at h
  by_cases hM : op = 'M'
  · subst hM
    refine ⟨by simp [insStep, pySlice], by simp [insStep], by simp [insStep],
            by simp [insStep], ?_, ?_⟩
    · intro x hx
      simpa [insStep] using hx
    · intro x hx
      exact Or.inl (by simpa [insStep] using hx)
  · by_cases hS : op = 'S'
    · subst hS
      have hmem := cigar_extend_mem st.newCigar st.mval ct 'S'
      refine ⟨by simp [insStep, pySlice], by simp [insStep], by simp [insStep],
              by simp [insStep], ?_, ?_⟩
      · intro x hx
        have hx2 := hmem.1 x hx
        simpa [insStep] using hx2
      · intro x hx
        exact hmem.2 x (by simpa [insStep] using hx)
    · by_cases hN : op = 'N' ∨ op = 'H' ∨ op = 'D'
      · have hmem := cigar_extend_mem st.newCigar st.mval ct op
        have hcond : ¬ (op = 'M' ∨ op = 'I' ∨ op = 'S') := by tauto
        have hcond2 : op = 'M' ∨ op = 'N' ∨ op = 'H' ∨ op = 'D' := by tauto
        simp only [insStep, if_neg hM, if_neg h, if_neg hS, if_pos hN]
        refine ⟨by simp [if_neg hcond], by simp [if_neg hcond],
                by simp [if_pos hcond2], by simp, hmem.1, hmem.2⟩
      · have hcond : ¬ (op = 'M' ∨ op = 'I' ∨ op = 'S') := by tauto
        have hcond2 : ¬ (op = 'M' ∨ op = 'N' ∨ op = 'H' ∨ op = 'D') := by tauto
        simp only [insStep, if_neg hM, if_neg h, if_neg hS, if_neg hN]
        refine ⟨by simp [if_neg hcond], by simp [if_neg hcond],
                by simp [if_neg hcond2], by simp, fun x hx => hx,
                fun x hx => Or.inl hx⟩

/-- Folding the insertion-correction loop over a stretch of the CIGAR that
contains no Insertion run. -/
lemma insStep_foldl_no_ins (chrom tid : String) (variants : InsCatalog)
    (maxLen : Int) (origSeq : List Char) (l : Cigar)
    (hl : ∀ p ∈ l, p.2 ≠ 'I') (st : CorrState) :
    (l.foldl (insStep chrom tid variants maxLen origSeq) st).newSeq
        = st.newSeq ++ (origSeq.drop st.seqPos).take (readSpan l) ∧
    (l.foldl (insStep chrom tid variants maxLen origSeq) st).seqPos
        = st.seqPos + readSpan l ∧
    (l.foldl (insStep chrom tid variants maxLen origSeq) st).genomePos
        = st.genomePos + refSpan l ∧
    (l.foldl (insStep chrom tid variants maxLen origSeq) st).te = st.te ∧
    (∀ x ∈ st.newCigar, x ∈ (l.foldl (insStep chrom tid variants maxLen origSeq) st).newCigar) ∧
    (∀ x ∈ (l.foldl (insStep chrom tid variants maxLen origSeq) st).newCigar,
        x ∈ st.newCigar ∨ x.2 = 'M' ∨ ∃ r ∈ l, x.2 = r.2) := by
  induction l generalizing st with
  | nil =>
    exact ⟨by simp [readSpan], by simp [readSpan], by simp [refSpan], rfl,
           fun x hx => hx, fun x hx => Or.inl hx⟩
  | cons p rest ih =>
    have hp : p.2 ≠ 'I' := hl p (List.mem_cons_self p rest)
    have hrest : ∀ q ∈ rest, q.2 ≠ 'I' := fun q hq => hl q (List.mem_cons_of_mem _ hq)
    obtain ⟨e1, e2, e3, e4, e5, e6⟩ :=
      insStep_not_ins chrom tid variants maxLen origSeq st p hp
    obtain ⟨f1, f2, f3, f4, f5, f6⟩ :=
      ih hrest (insStep chrom tid variants maxLen origSeq st p)
    rw [List.foldl_cons]
    refine ⟨?_, ?_, ?_, ?_, ?_, ?_⟩
    · rw [f1, e1, e2, List.append_assoc, slice_merge, readSpan_cons]
    · rw [f2, e2, readSpan_cons, Nat.add_assoc]
    · rw [f3, e3, refSpan_cons, Int.add_assoc]
    · rw [f4, e4]
    · intro x hx
      exact f5 x (e5 x hx)
    · intro x hx
      rcases f6 x hx with hin | hM | ⟨r, hr, hop⟩
      · rcases e6 x hin with hin2 | hM2 | hp2
        · exact Or.inl hin2
        · exact Or.inr (Or.inl hM2)
        · exact Or.inr (Or.inr ⟨p, List.mem_cons_self p rest, hp2⟩)
      · exact Or.inr (Or.inl hM)
      · exact Or.inr (Or.inr ⟨r, List.mem_cons_of_mem _ hr, hop⟩)

/-- Effect of one insertion-loop step on an Insertion run within the size
bound whose bases do not match a cataloged allele: the run is skipped in
the read (its bases dropped), nothing is appended to the rebuilt CIGAR, the
genome position stays put, and a Corrected entry is logged. -/
lemma insStep_corrected (chrom tid : String) (variants : InsCatalog)
    (maxLen : Int) (origSeq : List Char) (st : CorrState) (L : Int)
    (hsize : L ≤ maxLen)
    (hvar : ∀ alleles,
        variants (indelID chrom st.genomePos (st.genomePos + L - 1)) = some alleles →
        pySlice origSeq st.seqPos L ∉ alleles) :
    insStep chrom tid variants maxLen origSeq st (L, 'I')
      = { st with
            te := st.te ++ [teLine tid (indelID chrom st.genomePos (st.genomePos + L - 1))
                    "Insertion" L "Corrected" "NA"],
            seqPos := st.seqPos + L.toNat } := by
  simp only [insStep, if_true]
  rw [if_pos hsize]
  cases hv : variants (indelID chrom st.genomePos (st.genomePos + L - 1)) with
  | none => rfl
  | some alleles =>
    simp only
    rw [if_neg (hvar alleles hv)]
    simp

/-- Claim C4: an Insertion run within the size bound whose bases do not
match a cataloged allele is removed from the sequence (length drops by
exactly the run length), no Insertion operation remains in the rebuilt
CIGAR, the loop does not advance the genome position across the run, and a
single Corrected entry is logged. -/
theorem correctInsertions_corrects_small_uncataloged
    (variants : InsCatalog) (maxLen : Int) (t : Transcript)
    (pre post : Cigar) (L : Int)
    (hc : t.CIGAR = pre ++ (L, 'I') :: post)
    (hpre : ∀ p ∈ pre, p.2 ≠ 'I')
    (hpost : ∀ p ∈ post, p.2 ≠ 'I')
    (hsize : L ≤ maxLen)
    (hwf : readSpan t.CIGAR = t.SEQ.length)
    (hvar : ∀ alleles,
        variants (indelID t.CHROM (t.POS + refSpan pre) (t.POS + refSpan pre + L - 1))
            = some alleles →
        pySlice t.SEQ (readSpan pre) L ∉ alleles) :
    (correctInsertions variants maxLen t).1.SEQ.length + L.toNat = t.SEQ.length ∧
    (∀ p ∈ (correctInsertions variants maxLen t).1.CIGAR, p.2 ≠ 'I') ∧
    (insStep t.CHROM t.QNAME variants maxLen t.SEQ
        (pre.foldl (insStep t.CHROM t.QNAME variants maxLen t.SEQ) ⟨[], [], 0, 0, t.POS, []⟩)
        (L, 'I')).genomePos
      = (pre.foldl (insStep t.CHROM t.QNAME variants maxLen t.SEQ)
          ⟨[], [], 0, 0, t.POS, []⟩).genomePos ∧
    (correctInsertions variants maxLen t).2
      = [teLine t.QNAME
          (indelID t.CHROM (t.POS + refSpan pre) (t.POS + refSpan pre + L - 1))
          "Insertion" L "Corrected" "NA"] := by
  have hany : (t.CIGAR.any fun p => p.2 = 'I') = true := by
    rw [hc]; simp
  obtain ⟨p1, p2, p3, p4, p5, p6⟩ :=
    insStep_foldl_no_ins t.CHROM t.QNAME variants maxLen t.SEQ pre hpre
      ⟨[], [], 0, 0, t.POS, []⟩
  set stPre := pre.foldl (insStep t.CHROM t.QNAME variants maxLen t.SEQ)
    ⟨[], [], 0, 0, t.POS, []⟩ with hstPre
  simp only [List.drop_zero, List.nil_append, Nat.zero_add, Int.zero_add] at p1 p2 p3 p4
  set stMid : CorrState :=
      { stPre with
          te := stPre.te ++ [teLine t.QNAME
                  (indelID t.CHROM (t.POS + refSpan pre) (t.POS + refSpan pre + L - 1))
                  "Insertion" L "Corrected" "NA"],
          seqPos := stPre.seqPos + L.toNat } with hstMid
  have hmid : insStep t.CHROM t.QNAME variants maxLen t.SEQ stPre (L, 'I') = stMid := by
    rw [insStep_corrected t.CHROM t.QNAME variants maxLen t.SEQ stPre L hsize]
    · rw [hstMid, p3]
    · rw [p3, p2]
      exact hvar
  have m1 : stMid.newSeq = stPre.newSeq := by rw [hstMid]
  have m2 : stMid.seqPos = stPre.seqPos + L.toNat := by rw [hstMid]
  have m3 : stMid.genomePos = stPre.genomePos := by rw [hstMid]
  have m4 : stMid.te = stPre.te ++ [teLine t.QNAME
      (indelID t.CHROM (t.POS + refSpan pre) (t.POS + refSpan pre + L - 1))
      "Insertion" L "Corrected" "NA"] := by rw [hstMid]
  have m5 : stMid.newCigar = stPre.newCigar := by rw [hstMid]
  obtain ⟨q1, q2, q3, q4, q5, q6⟩ :=
    insStep_foldl_no_ins t.CHROM t.QNAME variants maxLen t.SEQ post hpost stMid
  set stEnd := post.foldl (insStep t.CHROM t.QNAME variants maxLen t.SEQ) stMid
    with hstEnd
  have hfold : t.CIGAR.foldl (insStep t.CHROM t.QNAME variants maxLen t.SEQ)
      ⟨[], [], 0, 0, t.POS, []⟩ = stEnd := by
    rw [hc, List.foldl_append, List.foldl_cons, ← hstPre, hmid, hstEnd]
  have hres : correctInsertions variants maxLen t
      = ({ t with CIGAR := (endMatch stEnd.mval stEnd.newCigar).2,
                  SEQ := stEnd.newSeq }, stEnd.te) := by
    simp only [correctInsertions, hany]
    rw [if_neg (by simp), hfold]
  have hspans : readSpan pre + L.toNat + readSpan post = t.SEQ.length := by
    rw [← hwf, hc, readSpan_append, readSpan_cons]
    have hif : (if ('I' : Char) = 'M' ∨ ('I' : Char) = 'I' ∨ ('I' : Char) = 'S'
        then L.toNat else 0) = L.toNat := by simp
    rw [hif]
    omega
  have hseq : stEnd.newSeq
      = t.SEQ.take (readSpan pre)
        ++ (t.SEQ.drop (readSpan pre + L.toNat)).take (readSpan post) := by
    rw [q1, m1, m2, p1, p2]
  refine ⟨?_, ?_, ?_, ?_⟩
  · rw [hres]
    simp only
    rw [hseq]
    simp only [List.length_append, List.length_take, List.length_drop]
    have h1 : readSpan pre ≤ t.SEQ.length := by omega
    rw [Nat.min_eq_left h1, Nat.min_eq_left (by omega)]
    omega
  · rw [hres]
    simp only
    intro p hp
    rcases endMatch_mem_rev _ _ hp with hin | hM
    · rcases q6 p hin with hin2 | hM2 | ⟨r, hr, hop⟩
      · rw [m5] at hin2
        rcases p6 p hin2 with hrefl | hM3 | ⟨r, hr, hop⟩
        · simp at hrefl
        · rw [hM3]; decide
        · rw [hop]; exact hpre r hr
      · rw [hM2]; decide
      · rw [hop]; exact hpost r hr
    · rw [hM]; decide
  · rw [hmid, m3]
  · rw [hres]
    simp only
    rw [q4, m4, p4]
    simp

/-! ### Loop invariants of the deletion-correction fold -/

lemma gseqAux_length (g : Genome) (chrom : String) (start : Int) (n : Nat)
    (l : List Char) (h : gseqAux g chrom start n = some l) : l.length = n := by
  induction n generalizing start l with
  | zero =>
    simp only [gseqAux, Option.some.injEq] at h
    rw [← h]
    rfl
  | succ n ih =>
    simp only [gseqAux, Option.bind_eq_bind, Option.bind_eq_some] at h
    obtain ⟨c, -, h2⟩ := h
    obtain ⟨rest, hrest, h3⟩ := h2
    simp only [Option.some.injEq] at h3
    rw [← h3]
    simp [ih _ _ hrest]

lemma genome_sequence_length (g : Genome) (chrom : String) (start stop : Int)
    (l : List Char) (h : genome_sequence g chrom start stop = some l) :
    l.length = (stop + 1 - start).toNat :=
  gseqAux_length g chrom start _ l h

/-- Effect of one deletion-loop step on any operation other than a
Deletion: the step never fails, and the state evolves by the span measures
while the rebuilt CIGAR only grows by flushed Match runs and the operation
itself. -/
lemma delStep_not_del (genome : Genome) (chrom tid : String) (variants : DelCatalog)
    (maxLen : Int) (origSeq : List Char) (st : CorrState) (p : Int × Char)
    (h : p.2 ≠ 'D') :
    ∃ st2, delStep genome chrom tid variants maxLen origSeq st p = some st2 ∧
      st2.newSeq = st.newSeq ++ (origSeq.drop st.seqPos).take
          (if p.2 = 'M' ∨ p.2 = 'I' ∨ p.2 = 'S' then p.1.toNat else 0) ∧
      st2.seqPos = st.seqPos + (if p.2 = 'M' ∨ p.2 = 'I' ∨ p.2 = 'S' then p.1.toNat else 0) ∧
      st2.genomePos = st.genomePos
          + (if p.2 = 'M' ∨ p.2 = 'N' ∨ p.2 = 'H' ∨ p.2 = 'D' then p.1 else 0) ∧
      st2.te = st.te ∧
      (∀ x ∈ st.newCigar, x ∈ st2.newCigar) ∧
      (∀ x ∈ st2.newCigar, x ∈ st.newCigar ∨ x.2 = 'M' ∨ x.2 = p.2) := by
  obtain ⟨ct, op⟩ := p
  simp only at h
  by_cases hM : op = 'M'
  · subst hM
    refine ⟨{ st with newSeq := st.newSeq ++ pySlice origSeq st.seqPos ct,
                      mval := st.mval + ct,
                      seqPos := st.seqPos + ct.toNat,
                      genomePos := st.genomePos + ct },
            by simp [delStep], by simp [pySlice], by simp, by simp, rfl,
            fun x hx => hx, fun x hx => Or.inl hx⟩
  · by_cases hSI : op = 'S' ∨ op = 'I'
    · have hmem := cigar_extend_mem st.newCigar st.mval ct op
      have hc1 : op = 'M' ∨ op = 'I' ∨ op = 'S' := by tauto
      have hc2 : ¬ (op = 'M' ∨ op = 'N' ∨ op = 'H' ∨ op = 'D') := by
        rintro (h1 | h1 | h1 | h1)
        · exact hM h1
        · rcases hSI with h2 | h2 <;> rw [h2] at h1 <;> exact absurd h1 (by decide)
        · rcases hSI with h2 | h2 <;> rw [h2] at h1 <;> exact absurd h1 (by decide)
        · exact h h1
      refine ⟨{ st with mval := (endMatch st.mval st.newCigar).1,
                        newSeq := st.newSeq ++ pySlice origSeq st.seqPos ct,
                        newCigar := (endMatch st.mval st.newCigar).2 ++ [(ct, op)],
                        seqPos := st.seqPos + ct.toNat },
              ?_, by simp [if_pos hc1, pySlice], by simp [if_pos hc1],
              by simp [if_neg hc2], rfl, hmem.1, hmem.2⟩
      simp only [delStep, if_neg hM, if_neg h, if_pos hSI]
    · by_cases hN : op = 'N' ∨ op = 'H'
      · have hmem := cigar_extend_mem st.newCigar st.mval ct op
        have hc1 : ¬ (op = 'M' ∨ op = 'I' ∨ op = 'S') := by tauto
        have hc2 : op = 'M' ∨ op = 'N' ∨ op = 'H' ∨ op = 'D' := by tauto
        refine ⟨{ st with mval := (endMatch st.mval st.newCigar).1,
                          genomePos := st.genomePos + ct,
                          newCigar := (endMatch st.mval st.newCigar).2 ++ [(ct, op)] },
                ?_, by simp [if_neg hc1], by simp [if_neg hc1],
                by simp [if_pos hc2], rfl, hmem.1, hmem.2⟩
        simp only [delStep, if_neg hM, if_neg h, if_neg hSI, if_pos hN]
      · have hc1 : ¬ (op = 'M' ∨ op = 'I' ∨ op = 'S') := by tauto
        have hc2 : ¬ (op = 'M' ∨ op = 'N' ∨ op = 'H' ∨ op = 'D') := by tauto
        refine ⟨st, ?_, by simp [if_neg hc1], by simp [if_neg hc1],
                by simp [if_neg hc2], rfl, fun x hx => hx, fun x hx => Or.inl hx⟩
        simp only [delStep, if_neg hM, if_neg h, if_neg hSI, if_neg hN]

/-- Folding the deletion-correction loop over a stretch of the CIGAR that
contains no Deletion run: the fold cannot fail. -/
lemma delStep_foldlM_no_del (genome : Genome) (chrom tid : String)
    (variants : DelCatalog) (maxLen : Int) (origSeq : List Char) (l : Cigar)
    (hl : ∀ p ∈ l, p.2 ≠ 'D') (st : CorrState) :
    ∃ st2, l.foldlM (delStep genome chrom tid variants maxLen origSeq) st = some st2 ∧
      st2.newSeq = st.newSeq ++ (origSeq.drop st.seqPos).take (readSpan l) ∧
      st2.seqPos = st.seqPos + readSpan l ∧
      st2.genomePos = st.genomePos + refSpan l ∧
      st2.te = st.te ∧
      (∀ x ∈ st.newCigar, x ∈ st2.newCigar) ∧
      (∀ x ∈ st2.newCigar, x ∈ st.newCigar ∨ x.2 = 'M' ∨ ∃ r ∈ l, x.2 = r.2) := by
  induction l generalizing st with
  | nil =>
    exact ⟨st, rfl, by simp [readSpan], by simp [readSpan], by simp [refSpan], rfl,
           fun x hx => hx, fun x hx => Or.inl hx⟩
  | cons p rest ih =>
    have hp : p.2 ≠ 'D' := hl p (List.mem_cons_self p rest)
    have hrest : ∀ q ∈ rest, q.2 ≠ 'D' := fun q hq => hl q (List.mem_cons_of_mem _ hq)
    obtain ⟨st1, e0, e1, e2, e3, e4, e5, e6⟩ :=
      delStep_not_del genome chrom tid variants maxLen origSeq st p hp
    obtain ⟨st2, f0, f1, f2, f3, f4, f5, f6⟩ := ih hrest st1
    refine ⟨st2, ?_, ?_, ?_, ?_, ?_, ?_, ?_⟩
    · rw [List.foldlM_cons, e0]
      simpa using f0
    · rw [f1, e1, e2, List.append_assoc, slice_merge, readSpan_cons]
    · rw [f2, e2, readSpan_cons, Nat.add_assoc]
    · rw [f3, e3, refSpan_cons, Int.add_assoc]
    · rw [f4, e4]
    · intro x hx
      exact f5 x (e5 x hx)
    · intro x hx
      rcases f6 x hx with hin | hM | ⟨r, hr, hop⟩
      · rcases e6 x hin with hin2 | hM2 | hp2
        · exact Or.inl hin2
        · exact Or.inr (Or.inl hM2)
        · exact Or.inr (Or.inr ⟨p, List.mem_cons_self p rest, hp2⟩)
      · exact Or.inr (Or.inl hM)
      · exact Or.inr (Or.inr ⟨r, List.mem_cons_of_mem _ hr, hop⟩)

/-- Effect of one deletion-loop step on a Deletion run within the size
bound whose span is not cataloged: the reference bases are spliced into the
sequence, the pending Match run absorbs the run, the genome position
advances, and a Corrected entry is logged. -/
lemma delStep_corrected (genome : Genome) (chrom tid : String)
    (variants : DelCatalog) (maxLen : Int) (origSeq : List Char)
    (st : CorrState) (K : Int) (bs : List Char)
    (hsize : K ≤ maxLen)
    (hvar : variants (indelID chrom st.genomePos (st.genomePos + K - 1)) = false)
    (hg : genome_sequence genome chrom st.genomePos (st.genomePos + K - 1) = some bs) :
    delStep genome chrom tid variants maxLen origSeq st (K, 'D') = some
      { st with
          te := st.te ++ [teLine tid (indelID chrom st.genomePos (st.genomePos + K - 1))
                  "Deletion" K "Corrected" "NA"],
          newSeq := st.newSeq ++ bs,
          genomePos := st.genomePos + K,
          mval := st.mval + K } := by
  simp only [delStep, if_true]
  rw [if_pos hsize]
  rw [if_neg (show ¬ (variants (indelID chrom st.genomePos (st.genomePos + K - 1))
    = true) by simp [hvar])]
  rw [hg]
  simp

/-- Effect of one deletion-loop step on a Deletion run exceeding the size
bound, for every catalog: the run is kept, and a TooLarge entry is logged. -/
lemma delStep_too_large (genome : Genome) (chrom tid : String)
    (variants : DelCatalog) (maxLen : Int) (origSeq : List Char)
    (st : CorrState) (K : Int) (hsize : ¬ K ≤ maxLen) :
    delStep genome chrom tid variants maxLen origSeq st (K, 'D') = some
      { st with
          te := st.te ++ [teLine tid (indelID chrom st.genomePos (st.genomePos + K - 1))
                  "Deletion" K "Uncorrected" "TooLarge"],
          mval := (endMatch st.mval st.newCigar).1,
          newCigar := (endMatch st.mval st.newCigar).2 ++ [(K, 'D')],
          genomePos := st.genomePos + K } := by
  simp only [delStep, if_true]
  rw [if_neg hsize]
  simp

/-- Effect of one insertion-loop step on an Insertion run exceeding the
size bound, for every catalog: the run is kept in sequence and CIGAR, and a
TooLarge entry is logged. -/
lemma insStep_too_large (chrom tid : String) (variants : InsCatalog)
    (maxLen : Int) (origSeq : List Char) (st : CorrState) (L : Int)
    (hsize : ¬ L ≤ maxLen) :
    insStep chrom tid variants maxLen origSeq st (L, 'I')
      = { st with
            te := st.te ++ [teLine tid (indelID chrom st.genomePos (st.genomePos + L - 1))
                    "Insertion" L "Uncorrected" "TooLarge"],
            mval := (endMatch st.mval st.newCigar).1,
            newSeq := st.newSeq ++ pySlice origSeq st.seqPos L,
            newCigar := (endMatch st.mval st.newCigar).2 ++ [(L, 'I')],
            seqPos := st.seqPos + L.toNat } := by
  simp only [insStep, if_true]
  rw [if_neg hsize]
  simp

lemma slice_merge0 (s : List Char) (a b : Nat) :
    s.take a ++ (s.drop a).take b = s.take (a + b) :=
  (List.take_add s a b).symm

/-- Claim C5: a Deletion run within the size bound whose span is not
cataloged is replaced by the reference bases fetched at that span, spliced
into the sequence at the matching position (length grows by exactly the run
length), the Deletion operation is absorbed into a Match run, and a single
Corrected entry is logged. -/
theorem correctDeletions_corrects_small_uncataloged
    (ops : TranscriptOps) (genome : Genome) (dels : DelCatalog) (maxLen : Int)
    (t : Transcript) (pre post : Cigar) (L : Int) (bs : List Char)
    (hc : t.CIGAR = pre ++ (L, 'D') :: post)
    (hpre : ∀ p ∈ pre, p.2 ≠ 'D')
    (hpost : ∀ p ∈ post, p.2 ≠ 'D')
    (hsize : L ≤ maxLen)
    (hwf : readSpan t.CIGAR = t.SEQ.length)
    (hvar : dels (indelID t.CHROM (t.POS + refSpan pre)
        (t.POS + refSpan pre + L - 1)) = false)
    (hg : genome_sequence genome t.CHROM (t.POS + refSpan pre)
        (t.POS + refSpan pre + L - 1) = some bs)
    (hnm : ∀ tr, ∃ r, ops.getNMandMD genome tr = some r) :
    ∃ t2, correctDeletions ops genome dels maxLen t
        = some (t2, [teLine t.QNAME
            (indelID t.CHROM (t.POS + refSpan pre) (t.POS + refSpan pre + L - 1))
            "Deletion" L "Corrected" "NA"]) ∧
      t2.SEQ = t.SEQ.take (readSpan pre) ++ bs ++ t.SEQ.drop (readSpan pre) ∧
      t2.SEQ.length = t.SEQ.length + L.toNat ∧
      (∀ p ∈ t2.CIGAR, p.2 ≠ 'D') := by
  have hany : (t.CIGAR.any fun p => p.2 = 'D') = true := by
    rw [hc]; simp
  obtain ⟨stPre, P0, p1, p2, p3, p4, p5, p6⟩ :=
    delStep_foldlM_no_del genome t.CHROM t.QNAME dels maxLen t.SEQ pre hpre
      ⟨[], [], 0, 0, t.POS, []⟩
  simp only [List.drop_zero, List.nil_append, Nat.zero_add, Int.zero_add] at p1 p2 p3 p4
  have hbs : bs.length = L.toNat := by
    have hlen := genome_sequence_length genome t.CHROM _ _ bs hg
    have harg : t.POS + refSpan pre + L - 1 + 1 - (t.POS + refSpan pre) = L := by ring
    rw [harg] at hlen
    exact hlen
  set stMid : CorrState :=
      { stPre with
          te := stPre.te ++ [teLine t.QNAME
                  (indelID t.CHROM (t.POS + refSpan pre) (t.POS + refSpan pre + L - 1))
                  "Deletion" L "Corrected" "NA"],
          newSeq := stPre.newSeq ++ bs,
          genomePos := stPre.genomePos + L,
          mval := stPre.mval + L } with hstMid
  have hmid : delStep genome t.CHROM t.QNAME dels maxLen t.SEQ stPre (L, 'D')
      = some stMid := by
    rw [delStep_corrected genome t.CHROM t.QNAME dels maxLen t.SEQ stPre L bs
        hsize (by rw [p3]; exact hvar) (by rw [p3]; exact hg)]
    rw [hstMid, p3]
  have m1 : stMid.newSeq = stPre.newSeq ++ bs := by rw [hstMid]
  have m2 : stMid.seqPos = stPre.seqPos := by rw [hstMid]
  have m4 : stMid.te = stPre.te ++ [teLine t.QNAME
      (indelID t.CHROM (t.POS + refSpan pre) (t.POS + refSpan pre + L - 1))
      "Deletion" L "Corrected" "NA"] := by rw [hstMid]
  have m5 : stMid.newCigar = stPre.newCigar := by rw [hstMid]
  obtain ⟨stEnd, Q0, q1, q2, q3, q4, q5, q6⟩ :=
    delStep_foldlM_no_del genome t.CHROM t.QNAME dels maxLen t.SEQ post hpost stMid
  have hfold : t.CIGAR.foldlM (delStep genome t.CHROM t.QNAME dels maxLen t.SEQ)
      ⟨[], [], 0, 0, t.POS, []⟩ = some stEnd := by
    rw [hc, List.foldlM_append, P0]
    simp only [Option.bind_eq_bind, Option.some_bind]
    rw [List.foldlM_cons, hmid]
    simpa using Q0
  have hspans : readSpan pre + readSpan post = t.SEQ.length := by
    rw [← hwf, hc, readSpan_append, readSpan_cons]
    have hif : (if ('D' : Char) = 'M' ∨ ('D' : Char) = 'I' ∨ ('D' : Char) = 'S'
        then L.toNat else 0) = 0 := by simp
    rw [hif]
    omega
  have hseq : stEnd.newSeq
      = t.SEQ.take (readSpan pre) ++ bs ++ t.SEQ.drop (readSpan pre) := by
    rw [q1, m1, m2, p1, p2, List.append_assoc]
    have hdrop : (t.SEQ.drop (readSpan pre)).take (readSpan post)
        = t.SEQ.drop (readSpan pre) := by
      apply List.take_of_length_le
      rw [List.length_drop]
      omega
    rw [hdrop, List.append_assoc]
  obtain ⟨r, hr⟩ := hnm { t with
      CIGAR := (endMatch stEnd.mval stEnd.newCigar).2, SEQ := stEnd.newSeq }
  refine ⟨{ t with CIGAR := (endMatch stEnd.mval stEnd.newCigar).2,
                   SEQ := stEnd.newSeq, NM := r.1, MD := r.2 }, ?_, ?_, ?_, ?_⟩
  · simp only [correctDeletions, hany]
    rw [if_neg (by simp), hfold]
    simp only [Option.bind_eq_bind, Option.some_bind]
    rw [hr]
    simp only [Option.some_bind]
    rw [q4, m4, p4]
    simp
  · simp only
    exact hseq
  · simp only
    rw [hseq]
    simp only [List.length_append, List.length_take, List.length_drop]
    have h1 : readSpan pre ≤ t.SEQ.length := by omega
    rw [Nat.min_eq_left h1, hbs]
    omega
  · simp only
    intro p hp
    rcases endMatch_mem_rev _ _ hp with hin | hM
    · rcases q6 p hin with hin2 | hM2 | ⟨rr, hrr, hop⟩
      · rw [m5] at hin2
        rcases p6 p hin2 with hrefl | hM3 | ⟨rr, hrr, hop⟩
        · simp at hrefl
        · rw [hM3]; decide
        · rw [hop]; exact hpre rr hrr
      · rw [hM2]; decide
      · rw [hop]; exact hpost rr hrr
    · rw [hM]; decide

/-- Claim C6: an insertion or deletion run exceeding the size bound is left
in place and logged Uncorrected with reason TooLarge, for every variant
catalog (so also when the run matches a cataloged variant); the sequence is
unchanged and the run survives in the output CIGAR. -/
theorem indel_too_large_policy
    (variants : InsCatalog) (dels : DelCatalog) (maxLen : Int)
    (ops : TranscriptOps) (genome : Genome) (t u : Transcript)
    (preI postI : Cigar) (L : Int)
    (hcI : t.CIGAR = preI ++ (L, 'I') :: postI)
    (hpreI : ∀ p ∈ preI, p.2 ≠ 'I') (hpostI : ∀ p ∈ postI, p.2 ≠ 'I')
    (hsizeI : maxLen < L)
    (hwfI : readSpan t.CIGAR = t.SEQ.length)
    (preD postD : Cigar) (K : Int)
    (hcD : u.CIGAR = preD ++ (K, 'D') :: postD)
    (hpreD : ∀ p ∈ preD, p.2 ≠ 'D') (hpostD : ∀ p ∈ postD, p.2 ≠ 'D')
    (hsizeD : maxLen < K)
    (hwfD : readSpan u.CIGAR = u.SEQ.length)
    (hnm : ∀ tr, ∃ r, ops.getNMandMD genome tr = some r) :
    ((correctInsertions variants maxLen t).1.SEQ = t.SEQ ∧
     (L, 'I') ∈ (correctInsertions variants maxLen t).1.CIGAR ∧
     (correctInsertions variants maxLen t).2
       = [teLine t.QNAME
           (indelID t.CHROM (t.POS + refSpan preI) (t.POS + refSpan preI + L - 1))
           "Insertion" L "Uncorrected" "TooLarge"]) ∧
    (∃ u2, correctDeletions ops genome dels maxLen u
        = some (u2, [teLine u.QNAME
            (indelID u.CHROM (u.POS + refSpan preD) (u.POS + refSpan preD + K - 1))
            "Deletion" K "Uncorrected" "TooLarge"]) ∧
      u2.SEQ = u.SEQ ∧ (K, 'D') ∈ u2.CIGAR) := by
  constructor
  · -- insertion part
    have hany : (t.CIGAR.any fun p => p.2 = 'I') = true := by
      rw [hcI]; simp
    obtain ⟨p1, p2, p3, p4, p5, p6⟩ :=
      insStep_foldl_no_ins t.CHROM t.QNAME variants maxLen t.SEQ preI hpreI
        ⟨[], [], 0, 0, t.POS, []⟩
    set stPre := preI.foldl (insStep t.CHROM t.QNAME variants maxLen t.SEQ)
      ⟨[], [], 0, 0, t.POS, []⟩ with hstPre
    simp only [List.drop_zero, List.nil_append, Nat.zero_add, Int.zero_add]
      at p1 p2 p3 p4
    set stMid : CorrState :=
        { stPre with
            te := stPre.te ++ [teLine t.QNAME
                    (indelID t.CHROM (t.POS + refSpan preI) (t.POS + refSpan preI + L - 1))
                    "Insertion" L "Uncorrected" "TooLarge"],
            mval := (endMatch stPre.mval stPre.newCigar).1,
            newSeq := stPre.newSeq ++ pySlice t.SEQ stPre.seqPos L,
            newCigar := (endMatch stPre.mval stPre.newCigar).2 ++ [(L, 'I')],
            seqPos := stPre.seqPos + L.toNat } with hstMid
    have hmid : insStep t.CHROM t.QNAME variants maxLen t.SEQ stPre (L, 'I') = stMid := by
      rw [insStep_too_large t.CHROM t.QNAME variants maxLen t.SEQ stPre L
        (by omega)]
      rw [hstMid, p3]
    have m1 : stMid.newSeq = stPre.newSeq ++ pySlice t.SEQ stPre.seqPos L := by
      rw [hstMid]
    have m2 : stMid.seqPos = stPre.seqPos + L.toNat := by rw [hstMid]
    have m4 : stMid.te = stPre.te ++ [teLine t.QNAME
        (indelID t.CHROM (t.POS + refSpan preI) (t.POS + refSpan preI + L - 1))
        "Insertion" L "Uncorrected" "TooLarge"] := by rw [hstMid]
    have m5 : (L, 'I') ∈ stMid.newCigar := by
      rw [hstMid]
      simp
    obtain ⟨q1, q2, q3, q4, q5, q6⟩ :=
      insStep_foldl_no_ins t.CHROM t.QNAME variants maxLen t.SEQ postI hpostI stMid
    set stEnd := postI.foldl (insStep t.CHROM t.QNAME variants maxLen t.SEQ) stMid
      with hstEnd
    have hfold : t.CIGAR.foldl (insStep t.CHROM t.QNAME variants maxLen t.SEQ)
        ⟨[], [], 0, 0, t.POS, []⟩ = stEnd := by
      rw [hcI, List.foldl_append, List.foldl_cons, ← hstPre, hmid, hstEnd]
    have hres : correctInsertions variants maxLen t
        = ({ t with CIGAR := (endMatch stEnd.mval stEnd.newCigar).2,
                    SEQ := stEnd.newSeq }, stEnd.te) := by
      simp only [correctInsertions, hany]
      rw [if_neg (by simp), hfold]
    have hspans : readSpan preI + L.toNat + readSpan postI = t.SEQ.length := by
      rw [← hwfI, hcI, readSpan_append, readSpan_cons]
      have hif : (if ('I' : Char) = 'M' ∨ ('I' : Char) = 'I' ∨ ('I' : Char) = 'S'
          then L.toNat else 0) = L.toNat := by simp
      rw [hif]
      omega
    have hseq : stEnd.newSeq = t.SEQ := by
      rw [q1, m1, m2, p1, p2]
      show (t.SEQ.take (readSpan preI) ++ (t.SEQ.drop (readSpan preI)).take L.toNat)
          ++ (t.SEQ.drop (readSpan preI + L.toNat)).take (readSpan postI) = t.SEQ
      rw [slice_merge0, slice_merge0, hspans]
      exact List.take_length t.SEQ
    refine ⟨?_, ?_, ?_⟩
    · rw [hres]
      simp only
      exact hseq
    · rw [hres]
      simp only
      exact endMatch_mem _ _ (q5 _ m5)
    · rw [hres]
      simp only
      rw [q4, m4, p4]
      simp
  · -- deletion part
    have hany : (u.CIGAR.any fun p => p.2 = 'D') = true := by
      rw [hcD]; simp
    obtain ⟨stPre, P0, p1, p2, p3, p4, p5, p6⟩ :=
      delStep_foldlM_no_del genome u.CHROM u.QNAME dels maxLen u.SEQ preD hpreD
        ⟨[], [], 0, 0, u.POS, []⟩
    simp only [List.drop_zero, List.nil_append, Nat.zero_add, Int.zero_add]
      at p1 p2 p3 p4
    set stMid : CorrState :=
        { stPre with
            te := stPre.te ++ [teLine u.QNAME
                    (indelID u.CHROM (u.POS + refSpan preD) (u.POS + refSpan preD + K - 1))
                    "Deletion" K "Uncorrected" "TooLarge"],
            mval := (endMatch stPre.mval stPre.newCigar).1,
            newCigar := (endMatch stPre.mval stPre.newCigar).2 ++ [(K, 'D')],
            genomePos := stPre.genomePos + K } with hstMid
    have hmid : delStep genome u.CHROM u.QNAME dels maxLen u.SEQ stPre (K, 'D')
        = some stMid := by
      rw [delStep_too_large genome u.CHROM u.QNAME dels maxLen u.SEQ stPre K
        (by omega)]
      rw [hstMid, p3]
    have m1 : stMid.newSeq = stPre.newSeq := by rw [hstMid]
    have m2 : stMid.seqPos = stPre.seqPos := by rw [hstMid]
    have m4 : stMid.te = stPre.te ++ [teLine u.QNAME
        (indelID u.CHROM (u.POS + refSpan preD) (u.POS + refSpan preD + K - 1))
        "Deletion" K "Uncorrected" "TooLarge"] := by rw [hstMid]
    have m5 : (K, 'D') ∈ stMid.newCigar := by
      rw [hstMid]
      simp
    obtain ⟨stEnd, Q0, q1, q2, q3, q4, q5, q6⟩ :=
      delStep_foldlM_no_del genome u.CHROM u.QNAME dels maxLen u.SEQ postD hpostD stMid
    have hfold : u.CIGAR.foldlM (delStep genome u.CHROM u.QNAME dels maxLen u.SEQ)
        ⟨[], [], 0, 0, u.POS, []⟩ = some stEnd := by
      rw [hcD, List.foldlM_append, P0]
      simp only [Option.bind_eq_bind, Option.some_bind]
      rw [List.foldlM_cons, hmid]
      simpa using Q0
    have hspans : readSpan preD + readSpan postD = u.SEQ.length := by
      rw [← hwfD, hcD, readSpan_append, readSpan_cons]
      have hif : (if ('D' : Char) = 'M' ∨ ('D' : Char) = 'I' ∨ ('D' : Char) = 'S'
          then K.toNat else 0) = 0 := by simp
      rw [hif]
      omega
    have hseq : stEnd.newSeq = u.SEQ := by
      rw [q1, m1, m2, p1, p2, slice_merge0, hspans]
      exact List.take_length u.SEQ
    obtain ⟨r, hr⟩ := hnm { u with
        CIGAR := (endMatch stEnd.mval stEnd.newCigar).2, SEQ := stEnd.newSeq }
    refine ⟨{ u with CIGAR := (endMatch stEnd.mval stEnd.newCigar).2,
                     SEQ := stEnd.newSeq, NM := r.1, MD := r.2 }, ?_, ?_, ?_⟩
    · simp only [correctDeletions, hany]
      rw [if_neg (by simp), hfold]
      simp only [Option.bind_eq_bind, Option.some_bind]
      rw [hr]
      simp only [Option.some_bind]
      rw [q4, m4, p4]
      simp
    · simp only
      exact hseq
    · simp only
      exact endMatch_mem _ _ (q5 _ m5)

/-- Witness for C4 at the concrete record 3M2I3M with an empty catalog. -/
theorem correctInsertions_corrects_small_uncataloged_witness :
    (correctInsertions noInsVariants 5 wtIns).1.SEQ.length + (2 : Int).toNat
      = wtIns.SEQ.length :=
  (correctInsertions_corrects_small_uncataloged noInsVariants 5 wtIns
    [(3, 'M')] [(3, 'M')] 2 rfl (by decide) (by decide) (by decide) (by decide)
    (fun alleles h => nomatch h)).1

/-- Witness for C5 at the concrete record 10M2D10M with an empty catalog,
also exhibiting the output CIGAR 22M from the claim. -/
theorem correctDeletions_corrects_small_uncataloged_witness :
    (∃ t2, correctDeletions opsId genomeConstA noDelVariants 5 wtDel
        = some (t2, [teLine wtDel.QNAME
            (indelID wtDel.CHROM (wtDel.POS + refSpan [(10, 'M')])
              (wtDel.POS + refSpan [(10, 'M')] + 2 - 1))
            "Deletion" 2 "Corrected" "NA"]) ∧
      t2.SEQ = wtDel.SEQ.take (readSpan [(10, 'M')]) ++ ['A', 'A']
          ++ wtDel.SEQ.drop (readSpan [(10, 'M')]) ∧
      t2.SEQ.length = wtDel.SEQ.length + (2 : Int).toNat ∧
      (∀ p ∈ t2.CIGAR, p.2 ≠ 'D')) ∧
    (correctDeletions opsId genomeConstA noDelVariants 5 wtDel).map
        (fun r => r.1.CIGAR) = some [(22, 'M')] :=
  ⟨correctDeletions_corrects_small_uncataloged opsId genomeConstA noDelVariants 5
      wtDel [(10, 'M')] [(10, 'M')] 2 ['A', 'A'] rfl (by decide) (by decide)
      (by decide) (by decide) rfl rfl (fun _ => ⟨(0, ""), rfl⟩),
   by decide⟩

/-! ### C7 and C3: splice-junction rejection and rollback -/

/-- Claim C7: when the combined offset exceeds the max offset, or either
individual offset magnitude exceeds twice the max offset, the correction
attempt returns uncorrected with reason TooFarFromAnnotJn and the same
unmodified record, and the junction loop logs exactly that entry while
keeping the record. -/
theorem attempt_jn_too_far
    (ops : TranscriptOps) (t : Transcript) (i : Nat) (genome : Genome)
    (ref_donors ref_acceptors : ClosestFn) (sjAnnot : List String) (maxDist : Int)
    (j : SpliceJunction) (hd ha : ClosestHit)
    (hj : t.spliceJunctions.get? i = some j)
    (hdon : ref_donors (get_splice_donor j) = some hd)
    (hacc : ref_acceptors (get_splice_acceptor j) = some ha)
    (hfar : combinedJunctionDist hd.dist ha.dist > maxDist ∨
        |hd.dist| > 2 * maxDist ∨ |ha.dist| > 2 * maxDist) :
    attempt_jn_correction ops t i genome ref_donors ref_acceptors sjAnnot maxDist
      = some (false, "TooFarFromAnnotJn", combinedJunctionDist hd.dist ha.dist, t) ∧
    (j.isCanonical = false →
      ∀ rest te, cleanNC_loop ops genome ref_donors ref_acceptors sjAnnot maxDist
          (i :: rest) t te
        = cleanNC_loop ops genome ref_donors ref_acceptors sjAnnot maxDist rest t
            (te ++ [tabJoin [t.QNAME, sjID j, "NC_SJ_boundary",
                toString (combinedJunctionDist hd.dist ha.dist),
                "Uncorrected", "TooFarFromAnnotJn"]])) := by
  have hatt : attempt_jn_correction ops t i genome ref_donors ref_acceptors
      sjAnnot maxDist
      = some (false, "TooFarFromAnnotJn", combinedJunctionDist hd.dist ha.dist, t) := by
    simp only [attempt_jn_correction, hj, hdon, hacc, Option.bind_eq_bind,
      Option.some_bind]
    rw [if_pos hfar]
  refine ⟨hatt, ?_⟩
  intro hcan rest te
  simp only [cleanNC_loop, hj, Option.bind_eq_bind, Option.some_bind]
  rw [if_neg (by simp [hcan])]
  simp only [hatt, Option.some_bind]
  simp

/-- Witness for C7 on the 5M10N5M record with both reference bounds 100
bases away and a max offset of 5. -/
theorem attempt_jn_too_far_witness :
    attempt_jn_correction opsId wtSJ 0 genomeConstA (closestAt 100)
        (closestAt 100) ["jn"] 5
      = some (false, "TooFarFromAnnotJn", combinedJunctionDist 100 100, wtSJ) :=
  (attempt_jn_too_far opsId wtSJ 0 genomeConstA (closestAt 100) (closestAt 100)
    ["jn"] 5 wjn ⟨"chr1", 0, 0, 100⟩ ⟨"chr1", 0, 0, 100⟩ rfl rfl rfl
    (by decide)).1

/-- Claim C3: when the closest-junction lookups succeed and the junction is
within range, but fixing either side or the post-fix updates fails, the
attempt returns uncorrected with reason Other and the unmodified record,
and the junction loop logs exactly that entry while keeping the state from
before the attempt. -/
theorem attempt_jn_other_rollback
    (ops : TranscriptOps) (t : Transcript) (i : Nat) (genome : Genome)
    (ref_donors ref_acceptors : ClosestFn) (sjAnnot : List String) (maxDist : Int)
    (j : SpliceJunction) (hd ha : ClosestHit)
    (hj : t.spliceJunctions.get? i = some j)
    (hdon : ref_donors (get_splice_donor j) = some hd)
    (hacc : ref_acceptors (get_splice_acceptor j) = some ha)
    (hnear : ¬ (combinedJunctionDist hd.dist ha.dist > maxDist ∨
        |hd.dist| > 2 * maxDist ∨ |ha.dist| > 2 * maxDist))
    (hfail : attempt_jn_try ops t i j hd.dist ha.dist genome sjAnnot = none) :
    attempt_jn_correction ops t i genome ref_donors ref_acceptors sjAnnot maxDist
      = some (false, "Other", combinedJunctionDist hd.dist ha.dist, t) ∧
    (j.isCanonical = false →
      ∀ rest te, cleanNC_loop ops genome ref_donors ref_acceptors sjAnnot maxDist
          (i :: rest) t te
        = cleanNC_loop ops genome ref_donors ref_acceptors sjAnnot maxDist rest t
            (te ++ [tabJoin [t.QNAME, sjID j, "NC_SJ_boundary",
                toString (combinedJunctionDist hd.dist ha.dist),
                "Uncorrected", "Other"]])) := by
  have hatt : attempt_jn_correction ops t i genome ref_donors ref_acceptors
      sjAnnot maxDist
      = some (false, "Other", combinedJunctionDist hd.dist ha.dist, t) := by
    simp only [attempt_jn_correction, hj, hdon, hacc, Option.bind_eq_bind,
      Option.some_bind]
    rw [if_neg hnear, hfail]
  refine ⟨hatt, ?_⟩
  intro hcan rest te
  simp only [cleanNC_loop, hj, Option.bind_eq_bind, Option.some_bind]
  rw [if_neg (by simp [hcan])]
  simp only [hatt, Option.some_bind]
  simp

/-- Witness for C3 on the 5M10N5M record: bounds one base away, but every
genome lookup fails, so the donor-side fix raises. -/
theorem attempt_jn_other_rollback_witness :
    attempt_jn_correction opsId wtSJ 0 genomeNoLookup (closestAt 1)
        (closestAt 1) ["jn"] 5
      = some (false, "Other", combinedJunctionDist 1 1, wtSJ) :=
  (attempt_jn_other_rollback opsId wtSJ 0 genomeNoLookup (closestAt 1)
    (closestAt 1) ["jn"] 5 wjn ⟨"chr1", 0, 0, 1⟩ ⟨"chr1", 0, 0, 1⟩ rfl rfl rfl
    (by decide) (by decide)).1

/-! ### C9 and C2: the orchestrator -/

lemma cleanNC_loop_all_canonical (ops : TranscriptOps) (genome : Genome)
    (ref_donors ref_acceptors : ClosestFn) (sjAnnot : List String) (maxDist : Int)
    (idxs : List Nat) (t : Transcript) (te : List String)
    (hcan : ∀ j ∈ t.spliceJunctions, j.isCanonical = true)
    (hidx : ∀ i ∈ idxs, i < t.spliceJunctions.length) :
    cleanNC_loop ops genome ref_donors ref_acceptors sjAnnot maxDist idxs t te
      = some (t, te) := by
  induction idxs with
  | nil => rfl
  | cons i rest ih =>
    have hi : i < t.spliceJunctions.length := hidx i (List.mem_cons_self i rest)
    obtain ⟨j, hj⟩ : ∃ j, t.spliceJunctions.get? i = some j := by
      rw [List.get?_eq_get hi]
      exact ⟨_, rfl⟩
    have hjc : j.isCanonical = true := hcan j (List.get?_mem hj)
    simp only [cleanNC_loop, hj, Option.bind_eq_bind, Option.some_bind]
    rw [if_pos (by simp [hjc])]
    exact ih (fun q hq => hidx q (List.mem_cons_of_mem _ hq))

lemma cleanNoncanonical_all_canonical (ops : TranscriptOps) (genome : Genome)
    (ref_donors ref_acceptors : ClosestFn) (sjAnnot : List String) (maxDist : Int)
    (t : Transcript)
    (hcan : ∀ j ∈ t.spliceJunctions, j.isCanonical = true) :
    cleanNoncanonical ops genome ref_donors ref_acceptors sjAnnot maxDist t
      = some (t, []) := by
  unfold cleanNoncanonical
  by_cases hc : t.isCanonical = true
  · rw [if_pos hc]
  · rw [if_neg hc]
    exact cleanNC_loop_all_canonical ops genome ref_donors ref_acceptors sjAnnot
      maxDist _ t [] hcan (fun i hi => List.mem_range.mp hi)

/-- Claim C9: a record with no literal bases in its mismatch tag, no
Insertion or Deletion operations in its CIGAR, and only canonical splice
junctions is returned unchanged, with no error entries and no diagnostics,
for every option set, variant catalog and splice reference. -/
theorem correct_transcript_clean_unchanged
    (opts : CorrOptions) (refs : Refs) (ops : TranscriptOps) (t : Transcript)
    (hmd : hasMismatchBases t.MD = false)
    (hins : ∀ p ∈ t.CIGAR, p.2 ≠ 'I')
    (hdel : ∀ p ∈ t.CIGAR, p.2 ≠ 'D')
    (hcan : ∀ j ∈ t.spliceJunctions, j.isCanonical = true) :
    correct_transcript opts refs ops t = ⟨t, [], []⟩ := by
  have hmm : correctMismatches ops refs.genome refs.snps t = some (t, []) := by
    simp [correctMismatches, hmd]
  have hanyI : (t.CIGAR.any fun p => p.2 = 'I') = false := by
    simp only [List.any_eq_false, decide_eq_true_eq]
    exact hins
  have hanyD : (t.CIGAR.any fun p => p.2 = 'D') = false := by
    simp only [List.any_eq_false, decide_eq_true_eq]
    exact hdel
  have hinsr : correctInsertions refs.insertions opts.maxLenIndel t = (t, []) := by
    simp only [correctInsertions]
    rw [if_pos (by simp [hanyI])]
  have hdelr : correctDeletions ops refs.genome refs.deletions opts.maxLenIndel t
      = some (t, []) := by
    simp only [correctDeletions]
    rw [if_pos (by simp [hanyD])]
  have hsjr : cleanNoncanonical ops refs.genome refs.donors refs.acceptors
      refs.sjAnnot opts.maxSJOffset t = some (t, []) :=
    cleanNoncanonical_all_canonical _ _ _ _ _ _ t hcan
  have hbody : correct_transcript_body opts refs ops t = some (t, []) := by
    simp only [correct_transcript_body, hmm, hinsr, hdelr, hsjr,
      Option.bind_eq_bind, Option.some_bind, ite_self, List.append_nil,
      List.nil_append]
  simp [correct_transcript, hbody]

/-- Witness for C9 on an error-free 4M record. -/
theorem correct_transcript_clean_unchanged_witness :
    correct_transcript wOpts wRefs opsId wtClean = ⟨wtClean, [], []⟩ :=
  correct_transcript_clean_unchanged wOpts wRefs opsId wtClean (by decide)
    (by decide) (by decide) (by decide)

/-- Claim C2: with every correction enabled and a nonempty splice
reference, a successful run of the orchestrator body is exactly the
sequential composition mismatch, insertion, deletion, splice junction in
that order on the working record, with the error entries concatenated in
stage order; and when any stage raises, the orchestrator returns the
original record, discards all partial error entries, and emits one
diagnostic instead of propagating. -/
theorem correct_transcript_order_and_rollback
    (opts : CorrOptions) (refs : Refs) (ops : TranscriptOps) (t0 : Transcript)
    (hm : opts.mismatchCorrection = true) (hi : opts.indelCorrection = true)
    (hs : opts.sjCorrection = true) (hsj : refs.sjAnnot.length > 0) :
    (∀ t te, correct_transcript_body opts refs ops t0 = some (t, te) →
      ∃ t1 te1 t2 te2 t3 te3 t4 te4,
        correctMismatches ops refs.genome refs.snps t0 = some (t1, te1) ∧
        correctInsertions refs.insertions opts.maxLenIndel t1 = (t2, te2) ∧
        correctDeletions ops refs.genome refs.deletions opts.maxLenIndel t2
          = some (t3, te3) ∧
        cleanNoncanonical ops refs.genome refs.donors refs.acceptors refs.sjAnnot
          opts.maxSJOffset t3 = some (t4, te4) ∧
        t = t4 ∧ te = te1 ++ (te2 ++ te3) ++ te4) ∧
    (correct_transcript_body opts refs ops t0 = none →
      correct_transcript opts refs ops t0 = ⟨t0, [], [correctionWarning t0]⟩) := by
  have hbody : correct_transcript_body opts refs ops t0
      = (correctMismatches ops refs.genome refs.snps t0).bind (fun s1 =>
          (correctDeletions ops refs.genome refs.deletions opts.maxLenIndel
              (correctInsertions refs.insertions opts.maxLenIndel s1.1).1).bind
            (fun sd =>
              (cleanNoncanonical ops refs.genome refs.donors refs.acceptors
                  refs.sjAnnot opts.maxSJOffset sd.1).bind (fun s3 =>
                some (s3.1, s1.2
                  ++ ((correctInsertions refs.insertions opts.maxLenIndel s1.1).2
                      ++ sd.2) ++ s3.2)))) := by
    simp only [correct_transcript_body, hm, hi, hs, hsj, if_true, and_true,
      Option.bind_eq_bind, Option.some_bind]
  constructor
  · intro t te h
    rw [hbody] at h
    obtain ⟨s1, hm1, h⟩ := Option.bind_eq_some.mp h
    obtain ⟨sd, hd1, h⟩ := Option.bind_eq_some.mp h
    obtain ⟨s3, hc1, h⟩ := Option.bind_eq_some.mp h
    simp only [Option.some.injEq, Prod.mk.injEq] at h
    refine ⟨s1.1, s1.2, (correctInsertions refs.insertions opts.maxLenIndel s1.1).1,
      (correctInsertions refs.insertions opts.maxLenIndel s1.1).2, sd.1, sd.2,
      s3.1, s3.2, ?_, rfl, ?_, ?_, ?_, ?_⟩
    · rw [hm1]
    · rw [← hd1]
    · rw [← hc1]
    · exact h.1.symm
    · exact h.2.symm
  · intro h
    simp [correct_transcript, h]

/-- Witness for C2: a record whose mismatch stage engages while the CIGAR
and MD tags cannot be merged, so the body raises and the orchestrator rolls
back to the original record with one diagnostic. -/
theorem correct_transcript_order_and_rollback_witness :
    correct_transcript wOpts wRefs opsMergeFail wtMM
      = ⟨wtMM, [], [correctionWarning wtMM]⟩ :=
  (correct_transcript_order_and_rollback wOpts wRefs opsMergeFail wtMM rfl rfl rfl
    (by decide)).2 (by decide)

/-- Witness for C6: the insertion record with the size bound lowered to 1. -/
theorem indel_too_large_policy_witness :
    (correctInsertions noInsVariants 1 wtIns).1.SEQ = wtIns.SEQ :=
  (indel_too_large_policy noInsVariants noDelVariants 1 opsId genomeConstA wtIns
    wtDel [(3, 'M')] [(3, 'M')] 2 rfl (by decide) (by decide) (by decide)
    (by decide) [(10, 'M')] [(10, 'M')] 2 rfl (by decide) (by decide) (by decide)
    (by decide) (fun _ => ⟨(0, ""), rfl⟩)).1.1

end TranscriptClean
